import Mathlib

/-!
Verification of the platform repository's core components against its
natural-language specification.

Three source modules are embedded, each in its own namespace, mirroring the
three crates they come from:

* `CoreStore` — the ledger state machine of `core/src/store/mod.rs`
  (`LedgerState`, `apply_transaction`, `validate_transaction` and the
  per-operation appliers/validators).
* `StakingOps` — the delegation operation validator of
  `ledger/src/staking/ops/delegation.rs` (`check_delegation_context`,
  `check_delegation_context_principal`, `DelegationOps::check_set_context`).
* `Subm` — the submission server of
  `components/submission_server/src/submission_server.rs`
  (`TxnHandle`, `SubmissionServer` and its block pipeline methods).

External cryptographic primitives (SHA-256, signature verification, the zei
transfer proof system) are out of the specified core; they are modelled as
injective digests and as signatures that carry the exact message and key they
are valid for, which makes them unforgeable in the model while keeping every
definition executable.  Maps are modelled extensionally as functions into
`Option`.  Machine integers are modelled as `Nat`; the one u64 summation whose
overflow is semantically relevant (the delegation stake sum) wraps modulo
`2 ^ 64` exactly as the release-mode Rust does.
-/

namespace CoreStore

/-- Extensional finite-map model of `std::collections::HashMap`. -/
abbrev Map (κ ν : Type) := κ → Option ν

def mapInsert [DecidableEq κ] {ν : Type} (m : Map κ ν) (k : κ) (v : ν) : Map κ ν :=
  fun k' => if k' = k then some v else m k'

def mapRemove [DecidableEq κ] {ν : Type} (m : Map κ ν) (k : κ) : Map κ ν :=
  fun k' => if k' = k then none else m k'

def mapEmpty {κ ν : Type} : Map κ ν := fun _ => none

/-- Model of the external SHA-256 oracle: an injective digest. -/
def sha256 (l : List Nat) : List Nat := l

structure TxSequenceNumber where
  val : Nat
deriving DecidableEq, Repr

structure UtxoAddress where
  transaction_id : TxSequenceNumber
  operation_index : Nat
  output_index : Nat
deriving DecidableEq, Repr

/-- Model of `zei::utxo_transaction::TxOutput`: an opaque record exposing an
owner public key (`get_pk`) plus an opaque payload. -/
structure TxOutput where
  public_key : Nat
  blob : Nat
deriving DecidableEq, Repr

structure Utxo where
  key : UtxoAddress
  digest : List Nat
  output : TxOutput
deriving DecidableEq, Repr

structure Address where
  key : Nat
deriving DecidableEq, Repr

/-- Model of an `XfrSignature`: it records the key and exact message it is a
valid signature for, so signatures are unforgeable by construction. -/
structure Sig where
  signedKey : Nat
  signedMsg : List Nat
deriving DecidableEq, Repr

structure LedgerSignature where
  address : Address
  signature : Sig
deriving DecidableEq, Repr

/-- `LedgerSignature::verify(msg)` from the data model: the signature must be
by the claimed address over exactly `msg`. -/
def LedgerSignature.verify (s : LedgerSignature) (msg : List Nat) : Bool :=
  s.signature.signedMsg == msg && s.signature.signedKey == s.address.key

structure AssetTokenCode where
  val : Nat
deriving DecidableEq, Repr

structure AssetTokenProperties where
  code : AssetTokenCode
  issuer : Address
  updatable : Bool
deriving DecidableEq, Repr

structure AssetToken where
  properties : AssetTokenProperties
  units : Nat
deriving DecidableEq, Repr

/-- Model of the zei transfer object inside an `AssetTransferBody`: it exposes
`get_outputs()` and a `verify()` verdict computed by the external proof
system. -/
structure ZeiTransaction where
  outputs : List TxOutput
  verifyOk : Bool
deriving DecidableEq, Repr

def ZeiTransaction.get_outputs (z : ZeiTransaction) : List TxOutput := z.outputs

def ZeiTransaction.verify (z : ZeiTransaction) : Bool := z.verifyOk

structure AssetTransferBody where
  inputs : List UtxoAddress
  operation_signatures : List LedgerSignature
  transfer : ZeiTransaction
deriving DecidableEq, Repr

structure AssetTransfer where
  body : AssetTransferBody
  body_signatures : List LedgerSignature
deriving DecidableEq, Repr

structure AssetIssuanceBody where
  seq_num : Nat
  code : AssetTokenCode
  outputs : List TxOutput
deriving DecidableEq, Repr

structure AssetIssuance where
  body : AssetIssuanceBody
  body_signature : LedgerSignature
deriving DecidableEq, Repr

structure AssetCreationBody where
  properties : AssetTokenProperties
deriving DecidableEq, Repr

structure AssetCreation where
  body : AssetCreationBody
  body_signature : LedgerSignature
deriving DecidableEq, Repr

inductive Operation where
  | AssetTransfer (t : AssetTransfer)
  | AssetIssuance (i : AssetIssuance)
  | AssetCreation (c : AssetCreation)
deriving DecidableEq, Repr

structure Transaction where
  operations : List Operation
deriving DecidableEq, Repr

structure SmartContractKey where
  val : Nat
deriving DecidableEq, Repr

structure SmartContract where
  val : Nat
deriving DecidableEq, Repr

structure AssetPolicyKey where
  val : Nat
deriving DecidableEq, Repr

structure CustomAssetPolicy where
  val : Nat
deriving DecidableEq, Repr

structure NextIndex where
  tx_index : TxSequenceNumber
  op_index : Nat
  utxo_index : Nat
deriving DecidableEq, Repr

structure LedgerState where
  txs : List Transaction
  utxos : Map UtxoAddress Utxo
  contracts : Map SmartContractKey SmartContract
  policies : Map AssetPolicyKey CustomAssetPolicy
  tokens : Map AssetTokenCode AssetToken
  issuance_num : Map AssetTokenCode Nat
  next_index : NextIndex

/-- `LedgerState::default()` / `LedgerState::new()`. -/
def LedgerState.new : LedgerState :=
  { txs := [], utxos := mapEmpty, contracts := mapEmpty, policies := mapEmpty,
    tokens := mapEmpty, issuance_num := mapEmpty,
    next_index := { tx_index := ⟨0⟩, op_index := 0, utxo_index := 0 } }

/-- Model of `serde_json::to_vec` on a `TxOutput`. -/
def serTxOutput (o : TxOutput) : List Nat := [o.public_key, o.blob]

def serListNat (l : List Nat) : List Nat := l.length :: l

def serList {α : Type} (f : α → List Nat) (l : List α) : List Nat :=
  l.length :: l.flatMap f

def serUtxoAddress (a : UtxoAddress) : List Nat :=
  [a.transaction_id.val, a.operation_index, a.output_index]

def serSignature (s : LedgerSignature) : List Nat :=
  [s.address.key, s.signature.signedKey] ++ serListNat s.signature.signedMsg

/-- Model of `serde_json::to_vec` on an `AssetTransferBody`. -/
def serTransferBody (b : AssetTransferBody) : List Nat :=
  serList serUtxoAddress b.inputs ++ serList serSignature b.operation_signatures
    ++ serList serTxOutput b.transfer.outputs ++ [cond b.transfer.verifyOk 1 0]

/-- Model of `serde_json::to_vec` on an `AssetIssuanceBody`. -/
def serIssuanceBody (b : AssetIssuanceBody) : List Nat :=
  [b.seq_num, b.code.val] ++ serList serTxOutput b.outputs

/-- Model of `serde_json::to_vec` on an `AssetCreationBody`. -/
def serCreationBody (b : AssetCreationBody) : List Nat :=
  [b.properties.code.val, b.properties.issuer.key, cond b.properties.updatable 1 0]

/-- `compute_sha256_hash` from `core/src/store/mod.rs`. -/
def compute_sha256_hash (msg : List Nat) : List Nat := sha256 msg

/-- `LedgerState::add_txo`: insert `txo` under the address built from the
current `next_index` and bump `utxo_index`. -/
def add_txo (s : LedgerState) (txo : TxOutput) : LedgerState :=
  let utxo_addr : UtxoAddress :=
    { transaction_id := ⟨s.next_index.tx_index.val⟩,
      operation_index := s.next_index.op_index,
      output_index := s.next_index.utxo_index }
  let utxo_ref : Utxo :=
    { key := utxo_addr, digest := compute_sha256_hash (serTxOutput txo), output := txo }
  { s with utxos := mapInsert s.utxos utxo_addr utxo_ref,
           next_index := { s.next_index with utxo_index := s.next_index.utxo_index + 1 } }

/-- `LedgerState::apply_asset_transfer`: remove every input address, then add
each output of the zei transfer. -/
def apply_asset_transfer (s : LedgerState) (transfer : AssetTransfer) : LedgerState :=
  let s1 := transfer.body.inputs.foldl
    (fun st u => { st with utxos := mapRemove st.utxos u }) s
  transfer.body.transfer.get_outputs.foldl add_txo s1

/-- `LedgerState::apply_asset_issuance`: add each output.  Note that the
source does not touch `issuance_num` here. -/
def apply_asset_issuance (s : LedgerState) (issue : AssetIssuance) : LedgerState :=
  issue.body.outputs.foldl add_txo s

/-- `LedgerState::apply_asset_creation`: register the token under its code
(with default `units = 0`). -/
def apply_asset_creation (s : LedgerState) (create : AssetCreation) : LedgerState :=
  let token : AssetToken := { properties := create.body.properties, units := 0 }
  { s with tokens := mapInsert s.tokens token.properties.code token }

/-- `LedgerState::apply_operation`: reset `utxo_index`, dispatch on the
operation, then bump `op_index`. -/
def apply_operation (s : LedgerState) (op : Operation) : LedgerState :=
  let s0 := { s with next_index := { s.next_index with utxo_index := 0 } }
  let s1 := match op with
    | .AssetTransfer transfer => apply_asset_transfer s0 transfer
    | .AssetIssuance issuance => apply_asset_issuance s0 issuance
    | .AssetCreation creation => apply_asset_creation s0 creation
  { s1 with next_index := { s1.next_index with op_index := s1.next_index.op_index + 1 } }

/-- `LedgerUpdate::apply_transaction for LedgerState`: reset `op_index`, apply
every operation in order, bump `tx_index`, append the transaction. -/
def apply_transaction (s : LedgerState) (txn : Transaction) : LedgerState :=
  let s0 := { s with next_index := { s.next_index with op_index := 0 } }
  let s1 := txn.operations.foldl apply_operation s0
  { s1 with next_index := { s1.next_index with tx_index := ⟨s1.next_index.tx_index.val + 1⟩ },
            txs := s1.txs ++ [txn] }

/-- `LedgerAccess::check_utxo for LedgerState`. -/
def check_utxo (s : LedgerState) (addr : UtxoAddress) : Option Utxo := s.utxos addr

/-- `LedgerState::validate_asset_transfer`: body signatures verify, every
input exists with at least one operation signature by its owner key, and the
zei transfer verifies. -/
def validate_asset_transfer (s : LedgerState) (transfer : AssetTransfer) : Bool :=
  transfer.body_signatures.all (fun sg => sg.verify (serTransferBody transfer.body)) &&
  transfer.body.inputs.all (fun u =>
    match s.utxos u with
    | none => false
    | some ut =>
      (transfer.body.operation_signatures.filter
        (fun x => x.address.key == ut.output.public_key)).length != 0) &&
  transfer.body.transfer.verify

/-- `LedgerState::validate_asset_issuance`: the token and its issuance counter
must both exist, `seq_num` must be strictly above the stored counter, the body
signature must verify and must be by the token's issuer. -/
def validate_asset_issuance (s : LedgerState) (issue : AssetIssuance) : Bool :=
  match s.tokens issue.body.code, s.issuance_num issue.body.code with
  | some token, some last_issuance_num =>
    decide (last_issuance_num < issue.body.seq_num) &&
    issue.body_signature.verify (serIssuanceBody issue.body) &&
    token.properties.issuer == issue.body_signature.address
  | _, _ => false

/-- `LedgerState::validate_asset_creation`: the code must be unused and the
body signature must verify. -/
def validate_asset_creation (s : LedgerState) (create : AssetCreation) : Bool :=
  !(s.tokens create.body.properties.code).isSome &&
  create.body_signature.verify (serCreationBody create.body)

/-- `LedgerState::validate_operation`. -/
def validate_operation (s : LedgerState) (op : Operation) : Bool :=
  match op with
  | .AssetTransfer transfer => validate_asset_transfer s transfer
  | .AssetIssuance issuance => validate_asset_issuance s issuance
  | .AssetCreation creation => validate_asset_creation s creation

/-- `LedgerValidate::validate_transaction for LedgerState`: every operation
must validate against the (unmodified) current state. -/
def validate_transaction (s : LedgerState) (txn : Transaction) : Bool :=
  txn.operations.all (validate_operation s)

end CoreStore

namespace CoreStore

/-- Outputs produced by one operation (in the order `apply_operation` inserts
them). -/
def opOutputs : Operation → List TxOutput
  | .AssetTransfer t => t.body.transfer.get_outputs
  | .AssetIssuance i => i.body.outputs
  | .AssetCreation _ => []

/-- Transfer input addresses listed by one operation. -/
def opInputs : Operation → List UtxoAddress
  | .AssetTransfer t => t.body.inputs
  | _ => []

/-- All transfer input addresses listed by a transaction. -/
def txnInputs (txn : Transaction) : List UtxoAddress :=
  txn.operations.flatMap opInputs

/-- Asset codes created by a transaction. -/
def createdCodes (txn : Transaction) : List AssetTokenCode :=
  txn.operations.filterMap (fun op => match op with
    | .AssetCreation c => some c.body.properties.code
    | _ => none)

/-- The addresses `apply_transaction` inserts for a transaction applied at
transaction sequence number `tid`, in insertion order. -/
def insertedAddrs (tid : Nat) (txn : Transaction) : List UtxoAddress :=
  txn.operations.enum.flatMap (fun p =>
    (List.range (opOutputs p.2).length).map (fun j =>
      { transaction_id := ⟨tid⟩, operation_index := p.1, output_index := j }))

/-- Strict lexicographic order on the (operation_index, output_index) part of
an address. -/
def addrLex (a b : UtxoAddress) : Prop :=
  a.operation_index < b.operation_index ∨
    (a.operation_index = b.operation_index ∧ a.output_index < b.output_index)

instance : DecidableRel addrLex := fun a b => by
  unfold addrLex; infer_instance

/-- Well-formedness of a ledger state: every address in the UTXO map was
assigned under a transaction sequence number strictly below the next one.
This holds of `LedgerState.new` and is preserved by `apply_transaction`. -/
def WfState (s : LedgerState) : Prop :=
  ∀ a : UtxoAddress, (s.utxos a).isSome →
    a.transaction_id.val < s.next_index.tx_index.val

theorem foldl_inv {σ α : Type} {f : σ → α → σ} {P : σ → Prop}
    (h : ∀ s a, P s → P (f s a)) :
    ∀ (l : List α) (s : σ), P s → P (l.foldl f s) := by
  intro l
  induction l with
  | nil => intro s hs; simpa using hs
  | cons x xs ih => intro s hs; simpa using ih (f s x) (h s x hs)

theorem add_txo_tx_index (s : LedgerState) (o : TxOutput) :
    (add_txo s o).next_index.tx_index = s.next_index.tx_index := rfl

theorem add_txo_op_index (s : LedgerState) (o : TxOutput) :
    (add_txo s o).next_index.op_index = s.next_index.op_index := rfl

theorem add_txo_utxo_index (s : LedgerState) (o : TxOutput) :
    (add_txo s o).next_index.utxo_index = s.next_index.utxo_index + 1 := rfl

theorem add_txo_issuance_num (s : LedgerState) (o : TxOutput) :
    (add_txo s o).issuance_num = s.issuance_num := rfl

theorem add_txo_tokens (s : LedgerState) (o : TxOutput) :
    (add_txo s o).tokens = s.tokens := rfl

theorem add_txo_txs (s : LedgerState) (o : TxOutput) :
    (add_txo s o).txs = s.txs := rfl

/-- Lookup after `add_txo`: the freshly built address now maps to the new
utxo; all other addresses are unchanged. -/
theorem add_txo_utxos (s : LedgerState) (o : TxOutput) (a : UtxoAddress) :
    (add_txo s o).utxos a =
      if a = { transaction_id := ⟨s.next_index.tx_index.val⟩,
               operation_index := s.next_index.op_index,
               output_index := s.next_index.utxo_index } then
        some { key := { transaction_id := ⟨s.next_index.tx_index.val⟩,
                        operation_index := s.next_index.op_index,
                        output_index := s.next_index.utxo_index },
               digest := compute_sha256_hash (serTxOutput o), output := o }
      else s.utxos a := rfl

/-- `addTxos` abbreviates the output-insertion fold shared by transfer and
issuance application. -/
def addTxos (s : LedgerState) (outs : List TxOutput) : LedgerState :=
  outs.foldl add_txo s

theorem addTxos_tx_index (outs : List TxOutput) (s : LedgerState) :
    (addTxos s outs).next_index.tx_index = s.next_index.tx_index := by
  induction outs generalizing s with
  | nil => rfl
  | cons o rest ih => simpa [addTxos, List.foldl_cons] using ih (add_txo s o)

theorem addTxos_op_index (outs : List TxOutput) (s : LedgerState) :
    (addTxos s outs).next_index.op_index = s.next_index.op_index := by
  induction outs generalizing s with
  | nil => rfl
  | cons o rest ih => simpa [addTxos, List.foldl_cons] using ih (add_txo s o)

theorem addTxos_issuance_num (outs : List TxOutput) (s : LedgerState) :
    (addTxos s outs).issuance_num = s.issuance_num := by
  induction outs generalizing s with
  | nil => rfl
  | cons o rest ih => simpa [addTxos, List.foldl_cons] using ih (add_txo s o)

theorem addTxos_tokens (outs : List TxOutput) (s : LedgerState) :
    (addTxos s outs).tokens = s.tokens := by
  induction outs generalizing s with
  | nil => rfl
  | cons o rest ih => simpa [addTxos, List.foldl_cons] using ih (add_txo s o)

theorem addTxos_txs (outs : List TxOutput) (s : LedgerState) :
    (addTxos s outs).txs = s.txs := by
  induction outs generalizing s with
  | nil => rfl
  | cons o rest ih => simpa [addTxos, List.foldl_cons] using ih (add_txo s o)

/-- Addresses whose coordinates can never be produced by the remaining
`add_txo` calls are untouched by the fold. -/
theorem addTxos_utxos_frame (outs : List TxOutput) (s : LedgerState) (a : UtxoAddress)
    (h : a.transaction_id.val ≠ s.next_index.tx_index.val ∨
         a.operation_index ≠ s.next_index.op_index ∨
         a.output_index < s.next_index.utxo_index) :
    (addTxos s outs).utxos a = s.utxos a := by
  induction outs generalizing s with
  | nil => rfl
  | cons o rest ih =>
    have hne : a ≠ { transaction_id := ⟨s.next_index.tx_index.val⟩,
                     operation_index := s.next_index.op_index,
                     output_index := s.next_index.utxo_index } := by
      intro he
      rcases h with h | h | h
      · exact h (by rw [he])
      · exact h (by rw [he])
      · rw [he] at h; exact Nat.lt_irrefl _ h
    have step : (add_txo s o).utxos a = s.utxos a := by
      rw [add_txo_utxos]; simp [hne]
    have h' : a.transaction_id.val ≠ (add_txo s o).next_index.tx_index.val ∨
        a.operation_index ≠ (add_txo s o).next_index.op_index ∨
        a.output_index < (add_txo s o).next_index.utxo_index := by
      rcases h with h | h | h
      · exact Or.inl h
      · exact Or.inr (Or.inl h)
      · exact Or.inr (Or.inr (by rw [add_txo_utxo_index]; omega))
    calc (addTxos s (o :: rest)).utxos a
        = (addTxos (add_txo s o) rest).utxos a := rfl
      _ = (add_txo s o).utxos a := ih (add_txo s o) h'
      _ = s.utxos a := step

/-- Characterisation of the fold inserting `outs`: the address with output
index `u + j` (where `u` is the starting `utxo_index`) maps to output `j`. -/
theorem addTxos_utxos_get (outs : List TxOutput) (s : LedgerState) (j : Nat)
    (out : TxOutput) (hj : outs[j]? = some out) :
    (addTxos s outs).utxos
        { transaction_id := ⟨s.next_index.tx_index.val⟩,
          operation_index := s.next_index.op_index,
          output_index := s.next_index.utxo_index + j } =
      some { key := { transaction_id := ⟨s.next_index.tx_index.val⟩,
                      operation_index := s.next_index.op_index,
                      output_index := s.next_index.utxo_index + j },
             digest := compute_sha256_hash (serTxOutput out), output := out } := by
  induction outs generalizing s j with
  | nil => simp at hj
  | cons o rest ih =>
    cases j with
    | zero =>
      simp at hj
      subst hj
      have frame : (addTxos (add_txo s o) rest).utxos
          { transaction_id := ⟨s.next_index.tx_index.val⟩,
            operation_index := s.next_index.op_index,
            output_index := s.next_index.utxo_index } =
          (add_txo s o).utxos
          { transaction_id := ⟨s.next_index.tx_index.val⟩,
            operation_index := s.next_index.op_index,
            output_index := s.next_index.utxo_index } := by
        apply addTxos_utxos_frame
        refine Or.inr (Or.inr ?_)
        show s.next_index.utxo_index < (add_txo s o).next_index.utxo_index
        rw [add_txo_utxo_index]; omega
      have base : (add_txo s o).utxos
          { transaction_id := ⟨s.next_index.tx_index.val⟩,
            operation_index := s.next_index.op_index,
            output_index := s.next_index.utxo_index } =
          some { key := { transaction_id := ⟨s.next_index.tx_index.val⟩,
                          operation_index := s.next_index.op_index,
                          output_index := s.next_index.utxo_index },
                 digest := compute_sha256_hash (serTxOutput o), output := o } := by
        rw [add_txo_utxos]; simp
      have : (addTxos s (o :: rest)).utxos
          { transaction_id := ⟨s.next_index.tx_index.val⟩,
            operation_index := s.next_index.op_index,
            output_index := s.next_index.utxo_index } =
          some { key := { transaction_id := ⟨s.next_index.tx_index.val⟩,
                          operation_index := s.next_index.op_index,
                          output_index := s.next_index.utxo_index },
                 digest := compute_sha256_hash (serTxOutput o), output := o } := by
        calc (addTxos s (o :: rest)).utxos _
            = (addTxos (add_txo s o) rest).utxos _ := rfl
          _ = _ := by rw [frame, base]
      simpa using this
    | succ j' =>
      simp only [List.getElem?_cons_succ] at hj
      have := ih (add_txo s o) j' hj
      have heq : (add_txo s o).next_index.tx_index.val = s.next_index.tx_index.val := rfl
      have heqo : (add_txo s o).next_index.op_index = s.next_index.op_index := rfl
      have hequ : (add_txo s o).next_index.utxo_index = s.next_index.utxo_index + 1 := rfl
      rw [heq, heqo, hequ] at this
      have harith : s.next_index.utxo_index + 1 + j' = s.next_index.utxo_index + (j' + 1) := by
        omega
      rw [harith] at this
      simpa [addTxos, List.foldl_cons] using this

end CoreStore

namespace CoreStore

/-- The input-removal fold at the start of `apply_asset_transfer`. -/
def removeAddrs (s : LedgerState) (inputs : List UtxoAddress) : LedgerState :=
  inputs.foldl (fun st u => { st with utxos := mapRemove st.utxos u }) s

theorem apply_asset_transfer_def (s : LedgerState) (t : AssetTransfer) :
    apply_asset_transfer s t =
      addTxos (removeAddrs s t.body.inputs) t.body.transfer.get_outputs := rfl

theorem removeAddrs_next_index (inputs : List UtxoAddress) (s : LedgerState) :
    (removeAddrs s inputs).next_index = s.next_index := by
  induction inputs generalizing s with
  | nil => rfl
  | cons u rest ih =>
    simpa [removeAddrs, List.foldl_cons] using
      ih { s with utxos := mapRemove s.utxos u }

theorem removeAddrs_tokens (inputs : List UtxoAddress) (s : LedgerState) :
    (removeAddrs s inputs).tokens = s.tokens := by
  induction inputs generalizing s with
  | nil => rfl
  | cons u rest ih =>
    simpa [removeAddrs, List.foldl_cons] using
      ih { s with utxos := mapRemove s.utxos u }

theorem removeAddrs_issuance_num (inputs : List UtxoAddress) (s : LedgerState) :
    (removeAddrs s inputs).issuance_num = s.issuance_num := by
  induction inputs generalizing s with
  | nil => rfl
  | cons u rest ih =>
    simpa [removeAddrs, List.foldl_cons] using
      ih { s with utxos := mapRemove s.utxos u }

theorem removeAddrs_txs (inputs : List UtxoAddress) (s : LedgerState) :
    (removeAddrs s inputs).txs = s.txs := by
  induction inputs generalizing s with
  | nil => rfl
  | cons u rest ih =>
    simpa [removeAddrs, List.foldl_cons] using
      ih { s with utxos := mapRemove s.utxos u }

/-- Lookup after removing a list of addresses: removed exactly on the listed
addresses, untouched elsewhere. -/
theorem removeAddrs_utxos (inputs : List UtxoAddress) (s : LedgerState) (a : UtxoAddress) :
    (removeAddrs s inputs).utxos a = if a ∈ inputs then none else s.utxos a := by
  induction inputs generalizing s with
  | nil => simp [removeAddrs]
  | cons u rest ih =>
    have step : (removeAddrs s (u :: rest)).utxos a =
        (removeAddrs { s with utxos := mapRemove s.utxos u } rest).utxos a := rfl
    rw [step, ih]
    by_cases hmem : a ∈ rest
    · simp [hmem]
    · by_cases hu : a = u
      · subst hu; simp [hmem, mapRemove]
      · simp [hmem, hu, mapRemove]

theorem apply_operation_tx_index (s : LedgerState) (op : Operation) :
    (apply_operation s op).next_index.tx_index = s.next_index.tx_index := by
  cases op with
  | AssetTransfer t =>
    simp only [apply_operation, apply_asset_transfer_def]
    rw [addTxos_tx_index, (removeAddrs_next_index t.body.inputs _ : _)]
  | AssetIssuance i =>
    simp only [apply_operation, apply_asset_issuance]
    rw [show (i.body.outputs.foldl add_txo _) = addTxos _ i.body.outputs from rfl,
        addTxos_tx_index]
  | AssetCreation c => rfl

theorem apply_operation_op_index (s : LedgerState) (op : Operation) :
    (apply_operation s op).next_index.op_index = s.next_index.op_index + 1 := by
  cases op with
  | AssetTransfer t =>
    simp only [apply_operation, apply_asset_transfer_def]
    rw [addTxos_op_index, (removeAddrs_next_index t.body.inputs _ : _)]
  | AssetIssuance i =>
    simp only [apply_operation, apply_asset_issuance]
    rw [show (i.body.outputs.foldl add_txo _) = addTxos _ i.body.outputs from rfl,
        addTxos_op_index]
  | AssetCreation c => rfl

theorem apply_operation_issuance_num (s : LedgerState) (op : Operation) :
    (apply_operation s op).issuance_num = s.issuance_num := by
  cases op with
  | AssetTransfer t =>
    simp only [apply_operation, apply_asset_transfer_def]
    rw [addTxos_issuance_num, removeAddrs_issuance_num]
  | AssetIssuance i =>
    simp only [apply_operation, apply_asset_issuance]
    rw [show (i.body.outputs.foldl add_txo _) = addTxos _ i.body.outputs from rfl,
        addTxos_issuance_num]
  | AssetCreation c => rfl

theorem apply_operation_txs (s : LedgerState) (op : Operation) :
    (apply_operation s op).txs = s.txs := by
  cases op with
  | AssetTransfer t =>
    simp only [apply_operation, apply_asset_transfer_def]
    rw [addTxos_txs, removeAddrs_txs]
  | AssetIssuance i =>
    simp only [apply_operation, apply_asset_issuance]
    rw [show (i.body.outputs.foldl add_txo _) = addTxos _ i.body.outputs from rfl,
        addTxos_txs]
  | AssetCreation c => rfl

/-- `apply_operation` keeps tokens except for a creation, which registers its
code. -/
theorem apply_operation_tokens (s : LedgerState) (op : Operation) (code : AssetTokenCode) :
    (apply_operation s op).tokens code =
      match op with
      | .AssetCreation c =>
        if code = c.body.properties.code then
          some { properties := c.body.properties, units := 0 }
        else s.tokens code
      | _ => s.tokens code := by
  cases op with
  | AssetTransfer t =>
    simp only [apply_operation, apply_asset_transfer_def]
    rw [addTxos_tokens, removeAddrs_tokens]
  | AssetIssuance i =>
    simp only [apply_operation, apply_asset_issuance]
    rw [show (i.body.outputs.foldl add_txo _) = addTxos _ i.body.outputs from rfl,
        addTxos_tokens]
  | AssetCreation c =>
    simp only [apply_operation, apply_asset_creation, mapInsert]

/-- An address assigned under a different transaction sequence number is
removed by `apply_operation` exactly when listed as an input, and otherwise
untouched. -/
theorem apply_operation_utxos_ne_tid (s : LedgerState) (op : Operation) (a : UtxoAddress)
    (h : a.transaction_id.val ≠ s.next_index.tx_index.val) :
    (apply_operation s op).utxos a = if a ∈ opInputs op then none else s.utxos a := by
  cases op with
  | AssetTransfer t =>
    simp only [apply_operation, apply_asset_transfer_def, opInputs]
    rw [addTxos_utxos_frame _ _ _ (Or.inl (by
      rw [(removeAddrs_next_index t.body.inputs _ : _)]; exact h))]
    rw [removeAddrs_utxos]
  | AssetIssuance i =>
    simp only [apply_operation, apply_asset_issuance, opInputs]
    have hfr := addTxos_utxos_frame i.body.outputs
      { s with next_index := { s.next_index with utxo_index := 0 } } a (Or.inl h)
    rw [show (List.foldl add_txo
          { s with next_index := { s.next_index with utxo_index := 0 } } i.body.outputs)
        = addTxos { s with next_index := { s.next_index with utxo_index := 0 } }
            i.body.outputs from rfl, hfr]
    simp
  | AssetCreation c =>
    simp only [apply_operation, apply_asset_creation, opInputs]
    simp

/-- An address already inserted by an earlier operation of the same
transaction (same sequence number, smaller operation index) survives
`apply_operation` untouched, provided the operation's inputs come from older
transactions. -/
theorem apply_operation_utxos_frame_lt (s : LedgerState) (op : Operation) (a : UtxoAddress)
    (htid : a.transaction_id.val = s.next_index.tx_index.val)
    (hop : a.operation_index < s.next_index.op_index)
    (hin : ∀ b ∈ opInputs op, b.transaction_id.val ≠ s.next_index.tx_index.val) :
    (apply_operation s op).utxos a = s.utxos a := by
  cases op with
  | AssetTransfer t =>
    simp only [apply_operation, apply_asset_transfer_def]
    rw [addTxos_utxos_frame _ _ _ (Or.inr (Or.inl (by
      rw [(removeAddrs_next_index t.body.inputs _ : _)]
      show a.operation_index ≠ s.next_index.op_index
      omega)))]
    rw [removeAddrs_utxos]
    have : a ∉ t.body.inputs := by
      intro hmem
      exact hin a hmem htid
    simp [this]
  | AssetIssuance i =>
    simp only [apply_operation, apply_asset_issuance]
    have hfr := addTxos_utxos_frame i.body.outputs
      { s with next_index := { s.next_index with utxo_index := 0 } } a
      (Or.inr (Or.inl (show a.operation_index ≠ s.next_index.op_index from by omega)))
    rw [show (List.foldl add_txo
          { s with next_index := { s.next_index with utxo_index := 0 } } i.body.outputs)
        = addTxos { s with next_index := { s.next_index with utxo_index := 0 } }
            i.body.outputs from rfl, hfr]
  | AssetCreation c => rfl

/-- The operation fold inside `apply_transaction`. -/
def applyOps (s : LedgerState) (ops : List Operation) : LedgerState :=
  ops.foldl apply_operation s

theorem applyOps_tx_index (ops : List Operation) (s : LedgerState) :
    (applyOps s ops).next_index.tx_index = s.next_index.tx_index := by
  induction ops generalizing s with
  | nil => rfl
  | cons op rest ih =>
    calc (applyOps s (op :: rest)).next_index.tx_index
        = (applyOps (apply_operation s op) rest).next_index.tx_index := rfl
      _ = (apply_operation s op).next_index.tx_index := ih _
      _ = s.next_index.tx_index := apply_operation_tx_index s op

theorem applyOps_op_index (ops : List Operation) (s : LedgerState) :
    (applyOps s ops).next_index.op_index = s.next_index.op_index + ops.length := by
  induction ops generalizing s with
  | nil => rfl
  | cons op rest ih =>
    calc (applyOps s (op :: rest)).next_index.op_index
        = (applyOps (apply_operation s op) rest).next_index.op_index := rfl
      _ = (apply_operation s op).next_index.op_index + rest.length := ih _
      _ = s.next_index.op_index + (op :: rest).length := by
          rw [apply_operation_op_index]; simp; omega

theorem applyOps_issuance_num (ops : List Operation) (s : LedgerState) :
    (applyOps s ops).issuance_num = s.issuance_num := by
  induction ops generalizing s with
  | nil => rfl
  | cons op rest ih =>
    calc (applyOps s (op :: rest)).issuance_num
        = (applyOps (apply_operation s op) rest).issuance_num := rfl
      _ = (apply_operation s op).issuance_num := ih _
      _ = s.issuance_num := apply_operation_issuance_num s op

theorem applyOps_txs (ops : List Operation) (s : LedgerState) :
    (applyOps s ops).txs = s.txs := by
  induction ops generalizing s with
  | nil => rfl
  | cons op rest ih =>
    calc (applyOps s (op :: rest)).txs
        = (applyOps (apply_operation s op) rest).txs := rfl
      _ = (apply_operation s op).txs := ih _
      _ = s.txs := apply_operation_txs s op

theorem applyOps_tokens_mono (ops : List Operation) (s : LedgerState)
    (code : AssetTokenCode) (h : (s.tokens code).isSome) :
    ((applyOps s ops).tokens code).isSome := by
  induction ops generalizing s with
  | nil => exact h
  | cons op rest ih =>
    have step : ((apply_operation s op).tokens code).isSome := by
      rw [apply_operation_tokens]
      cases op with
      | AssetTransfer t => exact h
      | AssetIssuance i => exact h
      | AssetCreation c =>
        by_cases hc : code = c.body.properties.code <;> simp [hc, h]
    exact ih _ step

/-- Every code created by some operation of the list is registered after the
fold. -/
theorem applyOps_tokens_created (ops : List Operation) (s : LedgerState)
    (code : AssetTokenCode)
    (h : ∃ c, Operation.AssetCreation c ∈ ops ∧ c.body.properties.code = code) :
    ((applyOps s ops).tokens code).isSome := by
  induction ops generalizing s with
  | nil => rcases h with ⟨c, hc, -⟩; simp at hc
  | cons op rest ih =>
    rcases h with ⟨c, hc, hcode⟩
    rcases List.mem_cons.mp hc with heq | hmem
    · subst heq
      have step : ((apply_operation s (Operation.AssetCreation c)).tokens code).isSome := by
        rw [apply_operation_tokens]
        simp [hcode.symm]
      exact applyOps_tokens_mono rest _ code step
    · exact ih _ ⟨c, hmem, hcode⟩

/-- Characterisation of the fold on addresses from other transactions:
exactly the listed inputs are gone, everything else is untouched. -/
theorem applyOps_utxos_ne_tid (ops : List Operation) (s : LedgerState) (a : UtxoAddress)
    (h : a.transaction_id.val ≠ s.next_index.tx_index.val) :
    (applyOps s ops).utxos a =
      if a ∈ ops.flatMap opInputs then none else s.utxos a := by
  induction ops generalizing s with
  | nil => simp [applyOps]
  | cons op rest ih =>
    have h' : a.transaction_id.val ≠ (apply_operation s op).next_index.tx_index.val := by
      rw [apply_operation_tx_index]; exact h
    have step : (applyOps s (op :: rest)).utxos a =
        (applyOps (apply_operation s op) rest).utxos a := rfl
    rw [step, ih _ h', apply_operation_utxos_ne_tid s op a h]
    by_cases h1 : a ∈ opInputs op <;> by_cases h2 : a ∈ rest.flatMap opInputs <;>
      simp [List.flatMap_cons, h1, h2]

end CoreStore

namespace CoreStore

/-- The output at position `j` of an operation is inserted by
`apply_operation` under address `(tx_index, op_index, j)`. -/
theorem apply_operation_utxos_inserted (s : LedgerState) (op : Operation) (j : Nat)
    (out : TxOutput) (hj : (opOutputs op)[j]? = some out) :
    (apply_operation s op).utxos
        { transaction_id := ⟨s.next_index.tx_index.val⟩,
          operation_index := s.next_index.op_index, output_index := j } =
      some { key := { transaction_id := ⟨s.next_index.tx_index.val⟩,
                      operation_index := s.next_index.op_index, output_index := j },
             digest := compute_sha256_hash (serTxOutput out), output := out } := by
  cases op with
  | AssetTransfer t =>
    simp only [apply_operation, apply_asset_transfer_def]
    have hni := removeAddrs_next_index t.body.inputs
      { s with next_index := { s.next_index with utxo_index := 0 } }
    have hget := addTxos_utxos_get t.body.transfer.get_outputs
      (removeAddrs { s with next_index := { s.next_index with utxo_index := 0 } }
        t.body.inputs) j out (by simpa [opOutputs] using hj)
    rw [hni] at hget
    simpa using hget
  | AssetIssuance i =>
    simp only [apply_operation, apply_asset_issuance]
    have hget := addTxos_utxos_get i.body.outputs
      { s with next_index := { s.next_index with utxo_index := 0 } } j out
      (by simpa [opOutputs] using hj)
    rw [show (List.foldl add_txo
          { s with next_index := { s.next_index with utxo_index := 0 } } i.body.outputs)
        = addTxos { s with next_index := { s.next_index with utxo_index := 0 } }
            i.body.outputs from rfl]
    simpa using hget
  | AssetCreation c => simp [opOutputs] at hj

/-- Fold version of `apply_operation_utxos_frame_lt`: an address inserted by an
earlier operation of the same transaction survives the remaining
operations. -/
theorem applyOps_utxos_frame_lt (ops : List Operation) (s : LedgerState) (a : UtxoAddress)
    (htid : a.transaction_id.val = s.next_index.tx_index.val)
    (hop : a.operation_index < s.next_index.op_index)
    (hin : ∀ b ∈ ops.flatMap opInputs, b.transaction_id.val ≠ s.next_index.tx_index.val) :
    (applyOps s ops).utxos a = s.utxos a := by
  induction ops generalizing s with
  | nil => rfl
  | cons op rest ih =>
    have hinop : ∀ b ∈ opInputs op, b.transaction_id.val ≠ s.next_index.tx_index.val := by
      intro b hb
      exact hin b (by simp [List.flatMap_cons, hb])
    have step := apply_operation_utxos_frame_lt s op a htid hop hinop
    have htid' : a.transaction_id.val = (apply_operation s op).next_index.tx_index.val := by
      rw [apply_operation_tx_index]; exact htid
    have hop' : a.operation_index < (apply_operation s op).next_index.op_index := by
      rw [apply_operation_op_index]; omega
    have hin' : ∀ b ∈ rest.flatMap opInputs,
        b.transaction_id.val ≠ (apply_operation s op).next_index.tx_index.val := by
      intro b hb
      rw [apply_operation_tx_index]
      rcases List.mem_flatMap.mp hb with ⟨o, ho, hbo⟩
      refine hin b ?_
      simp only [List.flatMap_cons, List.mem_append]
      right
      exact List.mem_flatMap.mpr ⟨o, ho, hbo⟩
    calc (applyOps s (op :: rest)).utxos a
        = (applyOps (apply_operation s op) rest).utxos a := rfl
      _ = (apply_operation s op).utxos a := ih _ htid' hop' hin'
      _ = s.utxos a := step

/-- The `j`-th output of the `i`-th operation ends up in the UTXO map under
address `(tx_index, op_index + i, j)` after the whole fold, provided all
listed inputs come from older transactions. -/
theorem applyOps_utxos_inserted (ops : List Operation) (s : LedgerState)
    (hin : ∀ b ∈ ops.flatMap opInputs, b.transaction_id.val ≠ s.next_index.tx_index.val)
    (i : Nat) (op : Operation) (hi : ops[i]? = some op)
    (j : Nat) (out : TxOutput) (hj : (opOutputs op)[j]? = some out) :
    (applyOps s ops).utxos
        { transaction_id := ⟨s.next_index.tx_index.val⟩,
          operation_index := s.next_index.op_index + i, output_index := j } =
      some { key := { transaction_id := ⟨s.next_index.tx_index.val⟩,
                      operation_index := s.next_index.op_index + i, output_index := j },
             digest := compute_sha256_hash (serTxOutput out), output := out } := by
  induction ops generalizing s i with
  | nil => simp at hi
  | cons op0 rest ih =>
    have hinrest : ∀ b ∈ rest.flatMap opInputs,
        b.transaction_id.val ≠ (apply_operation s op0).next_index.tx_index.val := by
      intro b hb
      rw [apply_operation_tx_index]
      rcases List.mem_flatMap.mp hb with ⟨o, ho, hbo⟩
      exact hin b (by simp [List.flatMap_cons]; right; exact ⟨o, ho, hbo⟩)
    cases i with
    | zero =>
      simp at hi
      subst hi
      have hbase := apply_operation_utxos_inserted s op0 j out hj
      have hframe := applyOps_utxos_frame_lt rest (apply_operation s op0)
        { transaction_id := ⟨s.next_index.tx_index.val⟩,
          operation_index := s.next_index.op_index, output_index := j }
        (by simp [apply_operation_tx_index])
        (by simp [apply_operation_op_index]) hinrest
      have : (applyOps s (op0 :: rest)).utxos
          { transaction_id := ⟨s.next_index.tx_index.val⟩,
            operation_index := s.next_index.op_index, output_index := j } =
          some { key := { transaction_id := ⟨s.next_index.tx_index.val⟩,
                          operation_index := s.next_index.op_index, output_index := j },
                 digest := compute_sha256_hash (serTxOutput out), output := out } := by
        calc (applyOps s (op0 :: rest)).utxos _
            = (applyOps (apply_operation s op0) rest).utxos _ := rfl
          _ = (apply_operation s op0).utxos _ := hframe
          _ = _ := hbase
      simpa using this
    | succ i' =>
      simp only [List.getElem?_cons_succ] at hi
      have := ih (apply_operation s op0) hinrest i' hi
      rw [apply_operation_tx_index, apply_operation_op_index] at this
      have harith : s.next_index.op_index + 1 + i' = s.next_index.op_index + (i' + 1) := by
        omega
      rw [harith] at this
      simpa [applyOps, List.foldl_cons] using this

/-- `insertedAddrs` written with an arbitrary starting operation index. -/
def insertedFrom (tid k : Nat) (ops : List Operation) : List UtxoAddress :=
  (ops.enumFrom k).flatMap (fun p =>
    (List.range (opOutputs p.2).length).map (fun j =>
      { transaction_id := ⟨tid⟩, operation_index := p.1, output_index := j }))

theorem insertedAddrs_eq_from (tid : Nat) (txn : Transaction) :
    insertedAddrs tid txn = insertedFrom tid 0 txn.operations := rfl

theorem mem_insertedFrom (tid k : Nat) (ops : List Operation) (a : UtxoAddress)
    (h : a ∈ insertedFrom tid k ops) :
    a.transaction_id = ⟨tid⟩ ∧ k ≤ a.operation_index := by
  induction ops generalizing k with
  | nil => simp [insertedFrom] at h
  | cons op rest ih =>
    have hsplit : a ∈ (List.range (opOutputs op).length).map (fun j =>
        ({ transaction_id := ⟨tid⟩, operation_index := k, output_index := j } : UtxoAddress))
        ∨ a ∈ insertedFrom tid (k + 1) rest := by
      simpa [insertedFrom, List.enumFrom, List.flatMap_cons] using h
    rcases hsplit with hg | hr
    · rcases List.mem_map.mp hg with ⟨j, -, rfl⟩
      exact ⟨rfl, Nat.le_refl k⟩
    · rcases ih (k + 1) hr with ⟨h1, h2⟩
      exact ⟨h1, by omega⟩

theorem pairwise_insertedFrom (tid k : Nat) (ops : List Operation) :
    List.Pairwise addrLex (insertedFrom tid k ops) := by
  induction ops generalizing k with
  | nil => simp [insertedFrom]
  | cons op rest ih =>
    have hsplit : insertedFrom tid k (op :: rest) =
        (List.range (opOutputs op).length).map (fun j =>
          ({ transaction_id := ⟨tid⟩, operation_index := k, output_index := j } : UtxoAddress))
        ++ insertedFrom tid (k + 1) rest := by
      simp [insertedFrom, List.enumFrom, List.flatMap_cons]
    rw [hsplit]
    refine List.pairwise_append.mpr ⟨?_, ih (k + 1), ?_⟩
    · refine List.pairwise_map.mpr ?_
      exact (List.pairwise_lt_range _).imp (fun hij => Or.inr ⟨rfl, hij⟩)
    · intro x hx y hy
      rcases List.mem_map.mp hx with ⟨j, -, rfl⟩
      rcases mem_insertedFrom tid (k + 1) rest y hy with ⟨-, hky⟩
      exact Or.inl (by simp; omega)

theorem pairwise_insertedAddrs (tid : Nat) (txn : Transaction) :
    List.Pairwise addrLex (insertedAddrs tid txn) := by
  rw [insertedAddrs_eq_from]
  exact pairwise_insertedFrom tid 0 txn.operations

theorem mem_insertedAddrs_tid (tid : Nat) (txn : Transaction) (a : UtxoAddress)
    (h : a ∈ insertedAddrs tid txn) : a.transaction_id.val = tid := by
  rw [insertedAddrs_eq_from] at h
  rcases mem_insertedFrom tid 0 txn.operations a h with ⟨h1, -⟩
  rw [h1]

/-- Validation of a transaction forces every listed transfer input to be
present in the UTXO map. -/
theorem validate_transaction_inputs_present (s : LedgerState) (txn : Transaction)
    (hv : validate_transaction s txn = true) :
    ∀ a ∈ txnInputs txn, (s.utxos a).isSome := by
  intro a ha
  rcases List.mem_flatMap.mp ha with ⟨op, hop, hain⟩
  have hvop : validate_operation s op = true := by
    have := List.all_eq_true.mp hv op hop
    simpa using this
  cases op with
  | AssetTransfer t =>
    simp only [validate_operation, validate_asset_transfer, Bool.and_eq_true] at hvop
    have hinputs := hvop.1.2
    have := List.all_eq_true.mp hinputs a (by simpa [opInputs] using hain)
    cases hlook : s.utxos a with
    | none => rw [hlook] at this; simp at this
    | some u => simp [hlook]
  | AssetIssuance i => simp [opInputs] at hain
  | AssetCreation c => simp [opInputs] at hain

end CoreStore

namespace CoreStore

theorem apply_transaction_eq (s : LedgerState) (txn : Transaction) :
    apply_transaction s txn =
      { applyOps { s with next_index := { s.next_index with op_index := 0 } } txn.operations with
        next_index := { (applyOps { s with next_index := { s.next_index with op_index := 0 } }
            txn.operations).next_index with
          tx_index := ⟨(applyOps { s with next_index := { s.next_index with op_index := 0 } }
            txn.operations).next_index.tx_index.val + 1⟩ },
        txs := (applyOps { s with next_index := { s.next_index with op_index := 0 } }
            txn.operations).txs ++ [txn] } := rfl

theorem apply_transaction_utxos (s : LedgerState) (txn : Transaction) :
    (apply_transaction s txn).utxos =
      (applyOps { s with next_index := { s.next_index with op_index := 0 } }
        txn.operations).utxos := rfl

theorem apply_transaction_tokens (s : LedgerState) (txn : Transaction) :
    (apply_transaction s txn).tokens =
      (applyOps { s with next_index := { s.next_index with op_index := 0 } }
        txn.operations).tokens := rfl

theorem apply_transaction_issuance_num (s : LedgerState) (txn : Transaction) :
    (apply_transaction s txn).issuance_num = s.issuance_num := by
  rw [show (apply_transaction s txn).issuance_num =
      (applyOps { s with next_index := { s.next_index with op_index := 0 } }
        txn.operations).issuance_num from rfl]
  rw [applyOps_issuance_num]

theorem apply_transaction_txs (s : LedgerState) (txn : Transaction) :
    (apply_transaction s txn).txs = s.txs ++ [txn] := by
  rw [show (apply_transaction s txn).txs =
      (applyOps { s with next_index := { s.next_index with op_index := 0 } }
        txn.operations).txs ++ [txn] from rfl]
  rw [applyOps_txs]

theorem apply_transaction_tx_index (s : LedgerState) (txn : Transaction) :
    (apply_transaction s txn).next_index.tx_index.val = s.next_index.tx_index.val + 1 := by
  rw [show (apply_transaction s txn).next_index.tx_index.val =
      (applyOps { s with next_index := { s.next_index with op_index := 0 } }
        txn.operations).next_index.tx_index.val + 1 from rfl]
  rw [applyOps_tx_index]

theorem mem_createdCodes (txn : Transaction) (code : AssetTokenCode)
    (h : code ∈ createdCodes txn) :
    ∃ c, Operation.AssetCreation c ∈ txn.operations ∧ c.body.properties.code = code := by
  rcases List.mem_filterMap.mp h with ⟨op, hop, hf⟩
  cases op with
  | AssetTransfer t => simp at hf
  | AssetIssuance i => simp at hf
  | AssetCreation c => exact ⟨c, hop, by simpa using hf⟩

/-- The post-state properties asserted (in amended form) by claim C1 about
`apply_transaction` on a fully validated transaction. -/
def applyTxnConclusion (s : LedgerState) (txn : Transaction) : Prop :=
  (∀ a ∈ txnInputs txn, (apply_transaction s txn).utxos a = none) ∧
  (∀ (i : Nat) (op : Operation), txn.operations[i]? = some op →
    ∀ (j : Nat) (out : TxOutput), (opOutputs op)[j]? = some out →
      s.utxos { transaction_id := ⟨s.next_index.tx_index.val⟩,
                operation_index := i, output_index := j } = none ∧
      ∃ u, (apply_transaction s txn).utxos
          { transaction_id := ⟨s.next_index.tx_index.val⟩,
            operation_index := i, output_index := j } = some u ∧ u.output = out) ∧
  List.Pairwise addrLex (insertedAddrs s.next_index.tx_index.val txn) ∧
  (∀ a ∈ insertedAddrs s.next_index.tx_index.val txn,
    a.transaction_id.val = s.next_index.tx_index.val) ∧
  (apply_transaction s txn).issuance_num = s.issuance_num ∧
  (∀ code ∈ createdCodes txn, ((apply_transaction s txn).tokens code).isSome) ∧
  (∀ a : UtxoAddress, a ∉ txnInputs txn →
    a.transaction_id.val ≠ s.next_index.tx_index.val →
    (apply_transaction s txn).utxos a = s.utxos a)

/-- C1 (amended): after `apply_transaction` on a transaction all of whose
operations pass `validate_transaction` (in a well-formed state), every listed
transfer input is gone from the UTXO map, every produced output sits under a
fresh address carrying this transaction's sequence number, the inserted
addresses are strictly lexicographically increasing in
(operation_index, output_index), every created code is registered in the token
registry, addresses of other transactions that were not spent are untouched —
and, amending the original claim, the stored issuance counters are left
completely unchanged (`apply_asset_issuance` never advances them). -/
theorem c1_apply_transaction_invariants (s : LedgerState) (txn : Transaction)
    (hwf : WfState s) (hv : validate_transaction s txn = true) :
    applyTxnConclusion s txn := by
  have hpresent := validate_transaction_inputs_present s txn hv
  have hin : ∀ b ∈ txn.operations.flatMap opInputs,
      b.transaction_id.val ≠
        ({ s with next_index := { s.next_index with op_index := 0 } } :
          LedgerState).next_index.tx_index.val := by
    intro b hb
    have hlt := hwf b (hpresent b hb)
    show b.transaction_id.val ≠ s.next_index.tx_index.val
    omega
  refine ⟨?_, ?_, ?_, ?_, ?_, ?_, ?_⟩
  · intro a ha
    rw [apply_transaction_utxos]
    rw [applyOps_utxos_ne_tid _ _ _ (hin a ha)]
    simp [txnInputs] at ha
    simp [ha]
  · intro i op hi j out hj
    constructor
    · by_contra hne
      rcases Option.ne_none_iff_exists'.mp hne with ⟨u, hu⟩
      have := hwf _ (by rw [hu]; rfl)
      simp at this
    · rw [apply_transaction_utxos]
      have := applyOps_utxos_inserted txn.operations
        { s with next_index := { s.next_index with op_index := 0 } } hin i op hi j out hj
      exact ⟨{ key := { transaction_id := ⟨s.next_index.tx_index.val⟩,
                        operation_index := i, output_index := j },
               digest := compute_sha256_hash (serTxOutput out), output := out },
             by simpa using this, rfl⟩
  · exact pairwise_insertedAddrs _ txn
  · exact mem_insertedAddrs_tid _ txn
  · exact apply_transaction_issuance_num s txn
  · intro code hc
    rw [apply_transaction_tokens]
    exact applyOps_tokens_created _ _ code (mem_createdCodes txn code hc)
  · intro a hnot hne
    rw [apply_transaction_utxos]
    rw [applyOps_utxos_ne_tid _ _ _ (by show a.transaction_id.val ≠ _; exact hne)]
    simp [txnInputs] at hnot
    rw [if_neg]
    intro hmem
    rcases List.mem_flatMap.mp hmem with ⟨x, hx, hax⟩
    exact hnot x hx hax

def codeB : AssetTokenCode := ⟨2⟩

def tokB : AssetToken := { properties := { code := codeB, issuer := ⟨10⟩, updatable := true },
                           units := 0 }

def issue5body : AssetIssuanceBody := { seq_num := 5, code := codeB, outputs := [⟨10, 0⟩] }

def issue5 : AssetIssuance :=
  { body := issue5body,
    body_signature := { address := ⟨10⟩, signature := ⟨10, serIssuanceBody issue5body⟩ } }

def sC1 : LedgerState :=
  { txs := [], utxos := mapEmpty, contracts := mapEmpty, policies := mapEmpty,
    tokens := mapInsert mapEmpty codeB tokB,
    issuance_num := mapInsert mapEmpty codeB 0,
    next_index := { tx_index := ⟨0⟩, op_index := 0, utxo_index := 0 } }

def txC1 : Transaction := ⟨[.AssetIssuance issue5]⟩

/-- Counterexample to C1 as stated: a fully validated issuance with
`seq_num = 5` leaves the stored issuance counter at `0` — the code never
advances it to the operation's `seq_num`. -/
theorem c1_issuance_counter_not_advanced :
    validate_transaction sC1 txC1 = true ∧
    (apply_transaction sC1 txC1).issuance_num codeB = some 0 ∧
    (apply_transaction sC1 txC1).issuance_num codeB ≠ some 5 := by
  refine ⟨by decide, by decide, by decide⟩

def addr0 : UtxoAddress := ⟨⟨0⟩, 0, 0⟩

def out0 : TxOutput := ⟨55, 7⟩

def utxo0 : Utxo := ⟨addr0, compute_sha256_hash (serTxOutput out0), out0⟩

def sW1 : LedgerState :=
  { txs := [], utxos := mapInsert mapEmpty addr0 utxo0, contracts := mapEmpty,
    policies := mapEmpty, tokens := mapInsert mapEmpty codeB tokB,
    issuance_num := mapInsert mapEmpty codeB 0,
    next_index := { tx_index := ⟨1⟩, op_index := 0, utxo_index := 0 } }

theorem sW1_wf : WfState sW1 := by
  intro a h
  by_cases ha : a = addr0
  · subst ha; decide
  · exfalso
    simp [sW1, mapInsert, mapEmpty, ha] at h

def createABody : AssetCreationBody := ⟨{ code := ⟨3⟩, issuer := ⟨11⟩, updatable := true }⟩

def createA : AssetCreation :=
  { body := createABody,
    body_signature := { address := ⟨11⟩, signature := ⟨11, serCreationBody createABody⟩ } }

def transferBBody : AssetTransferBody :=
  { inputs := [addr0],
    operation_signatures := [{ address := ⟨55⟩, signature := ⟨55, []⟩ }],
    transfer := { outputs := [⟨56, 1⟩], verifyOk := true } }

def transferB : AssetTransfer :=
  { body := transferBBody,
    body_signatures := [{ address := ⟨12⟩, signature := ⟨12, serTransferBody transferBBody⟩ }] }

def txW1 : Transaction :=
  ⟨[.AssetCreation createA, .AssetTransfer transferB, .AssetIssuance issue5]⟩

/-- Witness for C1: a concrete well-formed state and fully validating
transaction (creation + transfer spending an existing UTXO + issuance) on
which the amended invariant theorem applies. -/
theorem c1_apply_transaction_invariants_witness :
    WfState sW1 ∧ validate_transaction sW1 txW1 = true ∧ applyTxnConclusion sW1 txW1 :=
  ⟨sW1_wf, by decide, c1_apply_transaction_invariants sW1 txW1 sW1_wf (by decide)⟩

end CoreStore

namespace CoreStore

def codeX : AssetTokenCode := ⟨4⟩

def createXBody : AssetCreationBody := ⟨{ code := codeX, issuer := ⟨14⟩, updatable := false }⟩

/-- An asset creation whose body signature is invalid (it signs the empty
message instead of the serialised body). -/
def createXBad : AssetCreation :=
  { body := createXBody,
    body_signature := { address := ⟨14⟩, signature := ⟨14, []⟩ } }

def outX : TxOutput := ⟨77, 9⟩

/-- A transfer spending a UTXO address that does not exist on an empty
ledger, with no signatures at all — invalid on every count — producing one
output. -/
def transferX : AssetTransfer :=
  { body := { inputs := [⟨⟨5⟩, 0, 0⟩],
              operation_signatures := [],
              transfer := { outputs := [outX], verifyOk := true } },
    body_signatures := [] }

def txX : Transaction := ⟨[.AssetCreation createXBad, .AssetTransfer transferX]⟩

/-- C10: `apply_transaction` is total and performs no validation.  For every
state and transaction it bumps the transaction sequence index by exactly one,
appends the transaction to the history, registers every created code, removes
every listed transfer input (from older transactions), and inserts the `j`-th
output of the `i`-th operation under address `(tx_index, i, j)` (whenever the
listed inputs come from older transactions, so that nothing spends the fresh
address) — and on a concrete transaction that fails `validate_transaction`
(bad creation signature, missing transfer input, no transfer signatures) it
still registers the asset, inserts the transfer's output into the UTXO map,
and appends the transaction. -/
theorem c10_apply_transaction_unconditional :
    (∀ (s : LedgerState) (txn : Transaction),
      (apply_transaction s txn).next_index.tx_index.val = s.next_index.tx_index.val + 1) ∧
    (∀ (s : LedgerState) (txn : Transaction),
      (apply_transaction s txn).txs = s.txs ++ [txn]) ∧
    (∀ (s : LedgerState) (txn : Transaction) (code : AssetTokenCode),
      code ∈ createdCodes txn → ((apply_transaction s txn).tokens code).isSome) ∧
    (∀ (s : LedgerState) (txn : Transaction) (a : UtxoAddress),
      a ∈ txnInputs txn → a.transaction_id.val ≠ s.next_index.tx_index.val →
      (apply_transaction s txn).utxos a = none) ∧
    (∀ (s : LedgerState) (txn : Transaction) (i : Nat) (op : Operation)
       (j : Nat) (out : TxOutput),
      (∀ b ∈ txnInputs txn, b.transaction_id.val ≠ s.next_index.tx_index.val) →
      txn.operations[i]? = some op → (opOutputs op)[j]? = some out →
      ∃ u, (apply_transaction s txn).utxos
          { transaction_id := ⟨s.next_index.tx_index.val⟩,
            operation_index := i, output_index := j } = some u ∧ u.output = out) ∧
    (validate_transaction LedgerState.new txX = false ∧
      ((apply_transaction LedgerState.new txX).tokens codeX).isSome ∧
      (apply_transaction LedgerState.new txX).utxos ⟨⟨0⟩, 1, 0⟩ =
        some { key := ⟨⟨0⟩, 1, 0⟩,
               digest := compute_sha256_hash (serTxOutput outX), output := outX } ∧
      (apply_transaction LedgerState.new txX).txs = [txX]) := by
  refine ⟨?_, ?_, ?_, ?_, ?_, by decide, by decide, by decide, by decide⟩
  · exact apply_transaction_tx_index
  · exact apply_transaction_txs
  · intro s txn code hc
    rw [apply_transaction_tokens]
    exact applyOps_tokens_created _ _ code (mem_createdCodes txn code hc)
  · intro s txn a ha hne
    rw [apply_transaction_utxos]
    rw [applyOps_utxos_ne_tid _ _ _ (by show a.transaction_id.val ≠ _; exact hne)]
    simp [txnInputs] at ha
    simp [ha]
  · intro s txn i op j out hin hi hj
    rw [apply_transaction_utxos]
    have hin' : ∀ b ∈ txn.operations.flatMap opInputs,
        b.transaction_id.val ≠
          ({ s with next_index := { s.next_index with op_index := 0 } } :
            LedgerState).next_index.tx_index.val := by
      intro b hb
      show b.transaction_id.val ≠ s.next_index.tx_index.val
      exact hin b hb
    have := applyOps_utxos_inserted txn.operations
      { s with next_index := { s.next_index with op_index := 0 } } hin' i op hi j out hj
    exact ⟨{ key := { transaction_id := ⟨s.next_index.tx_index.val⟩,
                      operation_index := i, output_index := j },
             digest := compute_sha256_hash (serTxOutput out), output := out },
           by simpa using this, rfl⟩

/-- Witness for C10: the general clauses applied at a concrete state and
transaction — in particular the unvalidated `txX`'s transfer output is
inserted at address `(0, 1, 0)`. -/
theorem c10_apply_transaction_unconditional_witness :
    codeX ∈ createdCodes txX ∧
    ((apply_transaction LedgerState.new txX).tokens codeX).isSome ∧
    (∃ u, (apply_transaction LedgerState.new txX).utxos ⟨⟨0⟩, 1, 0⟩ = some u ∧
      u.output = outX) ∧
    (apply_transaction LedgerState.new txX).next_index.tx_index.val = 1 :=
  ⟨by decide,
   c10_apply_transaction_unconditional.2.2.1 LedgerState.new txX codeX (by decide),
   c10_apply_transaction_unconditional.2.2.2.2.1 LedgerState.new txX 1
     (.AssetTransfer transferX) 0 outX (by decide) (by decide) (by decide),
   c10_apply_transaction_unconditional.1 LedgerState.new txX⟩

def codeA : AssetTokenCode := ⟨1⟩

def createC3Body : AssetCreationBody := ⟨{ code := codeA, issuer := ⟨10⟩, updatable := true }⟩

def createC3 : AssetCreation :=
  { body := createC3Body,
    body_signature := { address := ⟨10⟩, signature := ⟨10, serCreationBody createC3Body⟩ } }

def txCreateC3 : Transaction := ⟨[.AssetCreation createC3]⟩

def issueC3Body : AssetIssuanceBody := { seq_num := 5, code := codeA, outputs := [⟨10, 0⟩] }

def issueC3 : AssetIssuance :=
  { body := issueC3Body,
    body_signature := { address := ⟨10⟩, signature := ⟨10, serIssuanceBody issueC3Body⟩ } }

def txIssueC3 : Transaction := ⟨[.AssetIssuance issueC3]⟩

/-- The state after creating the asset and then manually initialising its
issuance counter to `0` (the code itself never initialises it). -/
def sC3 : LedgerState :=
  { apply_transaction LedgerState.new txCreateC3 with
    issuance_num := mapInsert mapEmpty codeA 0 }

/-- C3 evaluation at the failing input: after creating an asset, a perfectly
signed issuance with `seq_num = 5` is REJECTED (the creation never initialises
the issuance counter, so check [1] of `validate_asset_issuance` fails), and
even if the counter is initialised by hand, replaying the very same
`seq_num = 5` issuance after applying it is ACCEPTED (application never
advances the counter) — both contradicting the claim's scenario. -/
theorem c3_issuance_replay_broken :
    validate_transaction LedgerState.new txCreateC3 = true ∧
    validate_asset_issuance (apply_transaction LedgerState.new txCreateC3) issueC3 = false ∧
    validate_asset_issuance sC3 issueC3 = true ∧
    validate_asset_issuance (apply_transaction sC3 txIssueC3) issueC3 = true := by
  refine ⟨by decide, by decide, by decide, by decide⟩

def codeD : AssetTokenCode := ⟨6⟩

def createDBody : AssetCreationBody := ⟨{ code := codeD, issuer := ⟨13⟩, updatable := true }⟩

def createD : AssetCreation :=
  { body := createDBody,
    body_signature := { address := ⟨13⟩, signature := ⟨13, serCreationBody createDBody⟩ } }

/-- A transaction creating the same code twice. -/
def txDup : Transaction := ⟨[.AssetCreation createD, .AssetCreation createD]⟩

/-- Counterexample to C8 as stated: a transaction whose second `AssetCreation`
re-creates a code already created earlier in the same transaction (hence in
the same block) passes `validate_transaction` — validation only consults the
committed token registry, never the in-flight duplicates. -/
theorem c8_duplicate_in_batch_not_detected :
    validate_transaction LedgerState.new txDup = true ∧
    createdCodes txDup = [codeD, codeD] := by
  refine ⟨by decide, by decide⟩

/-- C8 (amended): validation of an `AssetCreation` fails whenever its code is
already present in the committed ledger state, and with the code absent it
succeeds exactly when the body signature verifies; creations earlier in the
same transaction/block are not detected (see the counterexample). -/
theorem c8_validate_asset_creation_spec (s : LedgerState) (c : AssetCreation) :
    ((s.tokens c.body.properties.code).isSome → validate_asset_creation s c = false) ∧
    (s.tokens c.body.properties.code = none →
      (validate_asset_creation s c = true ↔
        c.body_signature.verify (serCreationBody c.body) = true)) := by
  constructor
  · intro h
    simp [validate_asset_creation, h]
  · intro h
    simp [validate_asset_creation, h]

def sC8 : LedgerState :=
  { txs := [], utxos := mapEmpty, contracts := mapEmpty, policies := mapEmpty,
    tokens := mapInsert mapEmpty codeD { properties := createDBody.properties, units := 0 },
    issuance_num := mapEmpty,
    next_index := { tx_index := ⟨0⟩, op_index := 0, utxo_index := 0 } }

/-- Witness for C8: with `codeD` already registered, even the perfectly signed
creation is rejected; with it absent, the same creation is accepted. -/
theorem c8_validate_asset_creation_spec_witness :
    ((sC8.tokens codeD).isSome ∧ validate_asset_creation sC8 createD = false) ∧
    (LedgerState.new.tokens codeD = none ∧
      validate_asset_creation LedgerState.new createD = true) :=
  ⟨⟨by decide, (c8_validate_asset_creation_spec sC8 createD).1 (by decide)⟩,
   ⟨by decide, ((c8_validate_asset_creation_spec LedgerState.new createD).2 (by decide)).mpr
      (by decide)⟩⟩

end CoreStore

namespace StakingOps

def U64MOD : Nat := 18446744073709551616

/-- Wrapping u64 summation, as Rust release-mode `Iterator::sum::<u64>()`. -/
def u64sum (l : List Nat) : Nat := l.foldl (fun a b => (a + b) % U64MOD) 0

/-- Modelled from the spec: the reserved native asset code `ASSET_TYPE_FRA`
(its byte value is irrelevant to the claims). -/
def ASSET_TYPE_FRA : Nat := 0

/-- Modelled from the spec: the canonical coinbase-principal escrow public
key, a well-known constant. -/
def COINBASE_PRINCIPAL_PK : Nat := 999

/-- Modelled from the spec: the minimum self-bond power required of a
first-time validator; the spec fixes no numeric value, so an arbitrary
constant is used and no proof depends on its value. -/
def STAKING_VALIDATOR_MIN_POWER : Nat := 1000000

inductive XfrAmount where
  | NonConfidential (v : Nat)
  | Confidential
deriving DecidableEq, Repr

inductive XfrAssetType where
  | NonConfidential (t : Nat)
  | Confidential
deriving DecidableEq, Repr

structure BlindAssetRecord where
  amount : XfrAmount
  asset_type : XfrAssetType
  public_key : Nat
deriving DecidableEq, Repr

structure TxOutput where
  record : BlindAssetRecord
deriving DecidableEq, Repr

structure XfrBody where
  inputs : List BlindAssetRecord
deriving DecidableEq, Repr

structure TransferAssetBody where
  transfer : XfrBody
  outputs : List TxOutput
deriving DecidableEq, Repr

structure TransferAsset where
  body : TransferAssetBody
deriving DecidableEq, Repr

structure NoReplayToken where
  val : Nat
deriving DecidableEq, Repr

abbrev TendermintAddr := List Nat

structure Validator where
  td_addr : List Nat
  td_power : Nat
  basicValid : Bool
deriving DecidableEq, Repr

/-- Modelled from the spec: `Validator::staking_is_basic_valid` runs basic
structural checks on the record; their verdict is abstracted into the
`basicValid` field. -/
def Validator.staking_is_basic_valid (v : Validator) : Bool := v.basicValid

structure XfrSignature where
  signedKey : Nat
  signedMsg : List Nat
deriving DecidableEq, Repr

/-- The body (`Data`) of a delegation operation from
`ledger/src/staking/ops/delegation.rs`. -/
structure DelegationData where
  validator : TendermintAddr
  validator_staking : Option Validator
  nonce : NoReplayToken
deriving DecidableEq, Repr

structure DelegationOps where
  body : DelegationData
  pubkey : Nat
  signature : XfrSignature
deriving DecidableEq, Repr

/-- The staking-era `Operation` enum, restricted to the variants
`check_delegation_context` inspects; every other variant is collapsed into
`Other`. -/
inductive Operation where
  | Delegation (d : DelegationOps)
  | TransferAsset (t : TransferAsset)
  | Other (tag : Nat)
deriving DecidableEq, Repr

structure TransactionBody where
  operations : List Operation
deriving DecidableEq, Repr

structure Transaction where
  body : TransactionBody
deriving DecidableEq, Repr

/-- The per-operation contribution inside
`check_delegation_context_principal`: a `TransferAsset` whose inputs all carry
one owner key equal to the delegator contributes the wrapping sum of its
non-confidential FRA outputs paid to the coinbase-principal key. -/
def transferDelegationAmount (owner : Nat) (op : Operation) : Option Nat :=
  match op with
  | .TransferAsset x =>
    let keys := x.body.transfer.inputs.map (fun i => i.public_key)
    if keys.dedup.length = 1 ∧ keys.head? = some owner then
      some (u64sum (x.body.outputs.filterMap (fun o =>
        match o.record.asset_type with
        | .NonConfidential ty =>
          if ty = ASSET_TYPE_FRA ∧ o.record.public_key = COINBASE_PRINCIPAL_PK then
            match o.record.amount with
            | .NonConfidential i_am => some i_am
            | .Confidential => none
          else none
        | .Confidential => none)))
    else none
  | _ => none

/-- The pubkeys of the `Delegation` operations of a transaction (the `owner`
vector of `check_delegation_context`). -/
def delegationKeys (tx : Transaction) : List Nat :=
  tx.body.operations.filterMap (fun op =>
    match op with
    | .Delegation x => some x.pubkey
    | _ => none)

/-- The total stake amount computed by `check_delegation_context_principal`
for a given delegator key. -/
def stakeAmount (tx : Transaction) (owner : Nat) : Nat :=
  u64sum (tx.body.operations.filterMap (transferDelegationAmount owner))

/-- `check_delegation_context_principal` from
`ledger/src/staking/ops/delegation.rs`. -/
def check_delegation_context_principal (tx : Transaction) (owner : Nat) :
    Except Unit Nat :=
  if 0 < stakeAmount tx owner then Except.ok (stakeAmount tx owner) else Except.error ()

/-- `check_delegation_context`: exactly one `Delegation` operation must be
present, then the principal payment is summed and must be positive. -/
def check_delegation_context (tx : Transaction) : Except Unit Nat :=
  match delegationKeys tx with
  | [d] => check_delegation_context_principal tx d
  | _ => Except.error ()

def hexDigitUpper (n : Nat) : Nat := if n < 10 then 48 + n else 55 + n

/-- Model of `hex::encode_upper` on a byte string (as a list of character
codes). -/
def hexEncodeUpper (bytes : List Nat) : List Nat :=
  bytes.flatMap (fun b => [hexDigitUpper (b / 16), hexDigitUpper (b % 16)])

/-- Modelled from the spec: the staking table, reduced to the fields the
delegation operation's checks observe (current height and the registered
validators). -/
structure Staking where
  cur_height : Nat
  validators : List Validator
deriving DecidableEq, Repr

/-- Modelled from the spec: the global power-ratio check invoked before
registering a validator.  The spec assigns it no observable contract and no
claim below depends on its verdict, so it is modelled as passing. -/
def Staking.validator_check_power_x (_s : Staking) (_am _lower : Nat) :
    Except Unit Unit := Except.ok ()

/-- Modelled from the spec: register a first-time validator record at the
given height; fails if a validator with the same consensus address is already
registered. -/
def Staking.validator_add_staker (s : Staking) (_h : Nat) (v : Validator) :
    Except Unit Staking :=
  if s.validators.any (fun w => w.td_addr == v.td_addr) then Except.error ()
  else Except.ok { s with validators := v :: s.validators }

/-- `DelegationOps::check_set_context`: run the delegation-context check, and
when a `validator_staking` record is supplied additionally require basic
validity, the minimum self-bond power, and that the body's validator address
is the upper-hex encoding of the record's consensus address, then register
the validator (with `td_power` set to the stake amount).  State is passed
explicitly: an error result carries no staking state, so the caller's table
is unchanged on failure. -/
def DelegationOps.check_set_context (ops : DelegationOps) (staking : Staking)
    (tx : Transaction) : Except Unit (Nat × Staking) :=
  match check_delegation_context tx with
  | .error e => .error e
  | .ok am =>
    match ops.body.validator_staking with
    | some v =>
      if ¬ v.staking_is_basic_valid = true ∨ am < STAKING_VALIDATOR_MIN_POWER ∨
          ops.body.validator ≠ hexEncodeUpper v.td_addr then
        .error ()
      else
        match staking.validator_check_power_x am 0 with
        | .error e => .error e
        | .ok _ =>
          match staking.validator_add_staker staking.cur_height
              { v with td_power := am } with
          | .error e => .error e
          | .ok st2 => .ok (am, st2)
    | none => .ok (am, staking)

end StakingOps

namespace StakingOps

/-- C2: the delegation context check succeeds with amount `A` exactly when the
transaction contains exactly one `Delegation` operation and `A`, the sum over
the paired single-owner transfers of their non-confidential FRA outputs to the
coinbase-principal key, is positive; in particular a transaction whose only
operation is a `Delegation` is rejected.  The check is a pure function of the
transaction, so no state can change. -/
theorem c2_check_delegation_context_spec :
    (∀ (tx : Transaction) (A : Nat),
      check_delegation_context tx = Except.ok A ↔
        (∃ d, delegationKeys tx = [d] ∧ A = stakeAmount tx d ∧ 0 < A)) ∧
    (∀ (tx : Transaction) (d : DelegationOps),
      tx.body.operations = [Operation.Delegation d] →
        check_delegation_context tx = Except.error ()) := by
  constructor
  · intro tx A
    unfold check_delegation_context
    cases hk : delegationKeys tx with
    | nil => simp
    | cons d tl =>
      cases tl with
      | nil =>
        simp only
        unfold check_delegation_context_principal
        by_cases hpos : 0 < stakeAmount tx d
        · rw [if_pos hpos]
          constructor
          · intro h
            injection h with h
            exact ⟨d, rfl, h.symm, h ▸ hpos⟩
          · rintro ⟨d', hd', hA, -⟩
            simp only [List.cons.injEq, and_true] at hd'
            subst hd'
            rw [hA]
        · rw [if_neg hpos]
          constructor
          · intro h; cases h
          · rintro ⟨d', hd', hA, hApos⟩
            simp only [List.cons.injEq, and_true] at hd'
            subst hd'
            exact absurd (hA ▸ hApos) hpos
      | cons d2 tl2 =>
        simp only
        constructor
        · intro h; cases h
        · rintro ⟨d', hd', -, -⟩
          simp at hd'
  · intro tx d h
    have hk : delegationKeys tx = [d.pubkey] := by
      simp [delegationKeys, h]
    have hs : stakeAmount tx d.pubkey = 0 := by
      simp [stakeAmount, h, transferDelegationAmount, u64sum]
    unfold check_delegation_context
    rw [hk]
    simp only
    unfold check_delegation_context_principal
    rw [hs]
    simp

instance {ε α : Type} [DecidableEq ε] [DecidableEq α] : DecidableEq (Except ε α) :=
  fun a b =>
  match a, b with
  | .error e, .error f =>
    decidable_of_iff (e = f)
      ⟨fun h => by rw [h], fun h => by injection h⟩
  | .ok x, .ok y =>
    decidable_of_iff (x = y)
      ⟨fun h => by rw [h], fun h => by injection h⟩
  | .error _, .ok _ => isFalse (fun h => by injection h)
  | .ok _, .error _ => isFalse (fun h => by injection h)

def transferW2 : TransferAsset :=
  { body := { transfer := { inputs := [{ amount := XfrAmount.NonConfidential 1000000,
                                         asset_type := XfrAssetType.NonConfidential ASSET_TYPE_FRA,
                                         public_key := 5 }] },
              outputs := [{ record := { amount := XfrAmount.NonConfidential 1000000,
                                        asset_type := XfrAssetType.NonConfidential ASSET_TYPE_FRA,
                                        public_key := COINBASE_PRINCIPAL_PK } }] } }

def delegW2 : DelegationOps :=
  { body := { validator := [1, 2], validator_staking := none, nonce := ⟨0⟩ },
    pubkey := 5, signature := ⟨5, []⟩ }

def txW2 : Transaction :=
  ⟨⟨[Operation.Delegation delegW2, Operation.TransferAsset transferW2]⟩⟩

/-- Witness for C2: a concrete transaction pairing one delegation with a
1000000-unit FRA transfer to the coinbase-principal key is accepted with
exactly that amount. -/
theorem c2_check_delegation_context_spec_witness :
    check_delegation_context txW2 = Except.ok 1000000 :=
  (c2_check_delegation_context_spec.1 txW2 1000000).mpr
    ⟨5, by decide, by decide, by decide⟩

/-- C9: when a `Delegation` operation carries a `validator_staking` record,
`check_set_context` succeeds only if the record passes its basic structural
check, the computed stake amount reaches `STAKING_VALIDATOR_MIN_POWER`, and
the body's validator address equals the upper-hex encoding of the record's
consensus address; when any of these fails (with the delegation context
otherwise fine) the whole check errors — and since an error carries no
staking state, no validator is registered. -/
theorem c9_validator_staking_checks (ops : DelegationOps) (staking : Staking)
    (tx : Transaction) (v : Validator)
    (hv : ops.body.validator_staking = some v) :
    (∀ (am : Nat) (st : Staking),
      DelegationOps.check_set_context ops staking tx = Except.ok (am, st) →
        v.staking_is_basic_valid = true ∧ STAKING_VALIDATOR_MIN_POWER ≤ am ∧
        ops.body.validator = hexEncodeUpper v.td_addr ∧
        check_delegation_context tx = Except.ok am) ∧
    (∀ am : Nat, check_delegation_context tx = Except.ok am →
      ¬ (v.staking_is_basic_valid = true ∧ STAKING_VALIDATOR_MIN_POWER ≤ am ∧
         ops.body.validator = hexEncodeUpper v.td_addr) →
      DelegationOps.check_set_context ops staking tx = Except.error ()) := by
  constructor
  · intro am st h
    unfold DelegationOps.check_set_context at h
    cases hc : check_delegation_context tx with
    | error e => rw [hc] at h; simp at h
    | ok a =>
      rw [hc] at h
      simp only [hv] at h
      by_cases hcond : (¬ v.staking_is_basic_valid = true ∨
          a < STAKING_VALIDATOR_MIN_POWER ∨
          ops.body.validator ≠ hexEncodeUpper v.td_addr)
      · rw [if_pos hcond] at h; cases h
      · rw [if_neg hcond] at h
        push_neg at hcond
        obtain ⟨h1, h2, h3⟩ := hcond
        simp only [Staking.validator_check_power_x] at h
        cases hadd : Staking.validator_add_staker staking staking.cur_height
            { v with td_power := a } with
        | error e => rw [hadd] at h; cases h
        | ok st2 =>
          rw [hadd] at h
          injection h with h
          injection h with ham hst
          subst ham
          exact ⟨h1, by omega, h3, rfl⟩
  · intro am hc hnot
    unfold DelegationOps.check_set_context
    rw [hc]
    simp only [hv]
    rw [if_pos]
    by_contra hcond
    push_neg at hcond
    obtain ⟨h1, h2, h3⟩ := hcond
    exact hnot ⟨h1, by omega, h3⟩

def vW9 : Validator := { td_addr := [26, 171], td_power := 0, basicValid := false }

def delegW9 : DelegationOps :=
  { body := { validator := hexEncodeUpper [26, 171], validator_staking := some vW9,
              nonce := ⟨0⟩ },
    pubkey := 5, signature := ⟨5, []⟩ }

def txW9 : Transaction :=
  ⟨⟨[Operation.Delegation delegW9, Operation.TransferAsset transferW2]⟩⟩

def stakingW9 : Staking := { cur_height := 100, validators := [] }

/-- Witness for C9: a delegation carrying a structurally invalid validator
record is rejected by `check_set_context` even though the delegation context
itself computes a positive stake amount. -/
theorem c9_validator_staking_checks_witness :
    delegW9.body.validator_staking = some vW9 ∧
    check_delegation_context txW9 = Except.ok 1000000 ∧
    DelegationOps.check_set_context delegW9 stakingW9 txW9 = Except.error () :=
  ⟨rfl, by decide,
   (c9_validator_staking_checks delegW9 stakingW9 txW9 vW9 rfl).2 1000000
     (by decide) (by decide)⟩

end StakingOps

namespace Subm

abbrev Bytes := List Nat

structure TxnSID where
  val : Nat
deriving DecidableEq, Repr

structure TxnTempSID where
  val : Nat
deriving DecidableEq, Repr

structure TxoSID where
  val : Nat
deriving DecidableEq, Repr

/-- Modelled from the spec: the `ledger::data_model::Transaction` of the
submission-server era is not under `src/`; it is reduced to an opaque payload,
the number of outputs its effect produces, and the verdict of the pure
signature/consistency checks `TxnEffect::compute_effect` runs. -/
structure Transaction where
  wellFormed : Bool
  nOuts : Nat
  payload : Nat
deriving DecidableEq, Repr

/-- Modelled from the spec: `Transaction::serialize_bincode(sid)` — a
deterministic, injective binary encoding of the transaction with the given
`TxnSID` spliced in. -/
def serialize_bincode (t : Transaction) (sid : TxnSID) : Bytes :=
  [cond t.wellFormed 1 0, t.nOuts, t.payload, sid.val]

/-- Model of the external `cryptohash::sha256` oracle: an injective digest. -/
def sha256 (b : Bytes) : Bytes := b

def hexDigitLower (n : Nat) : Nat := if n < 10 then 48 + n else 87 + n

/-- Model of `hex::encode` (lowercase) on a digest. -/
def hexEncode (b : Bytes) : Bytes :=
  b.flatMap (fun x => [hexDigitLower (x / 16), hexDigitLower (x % 16)])

/-- `TxnHandle` — the client-facing content identifier (a hex string, kept as
character codes). -/
structure TxnHandle where
  hex : Bytes
deriving DecidableEq, Repr

/-- `TxnHandle::new`: lowercase hex of the SHA-256 of the bincode
serialization of the transaction with the sentinel `TxnSID(0)`. -/
def TxnHandle.new (txn : Transaction) : TxnHandle :=
  ⟨hexEncode (sha256 (serialize_bincode txn ⟨0⟩))⟩

inductive TxnStatus where
  | Committed (r : TxnSID × List TxoSID)
  | Pending
deriving DecidableEq, Repr

inductive PlatformError where
  | SubmissionServerError
  | EffectError
deriving DecidableEq, Repr

/-- Outcome of a submission-server method: a value, a `PlatformError`
returned to the caller, or a Rust panic (assertion failure / `unwrap`). -/
inductive Outcome (α : Type) where
  | ok (a : α)
  | err (e : PlatformError)
  | panicked

/-- Modelled from the spec: the validated projection of one transaction
(`TxnEffect`). -/
structure TxnEffect where
  txn : Transaction
deriving DecidableEq, Repr

/-- Modelled from the spec: `TxnEffect::compute_effect` runs the pure
signature and consistency checks (whose verdict is the transaction's
`wellFormed` flag) and never depends on the RNG. -/
def compute_effect (t : Transaction) : Except PlatformError TxnEffect :=
  if t.wellFormed then Except.ok ⟨t⟩ else Except.error PlatformError.EffectError

/-- Modelled from the spec: the committed `LedgerState` of the block
pipeline — a canonical transaction counter, an output counter and the log of
committed effects. -/
structure LedgerState where
  txn_count : Nat
  txo_count : Nat
  effectsLog : List TxnEffect
deriving DecidableEq, Repr

/-- Modelled from the spec: the in-block overlay (`BlockContext`); temp-SIDs
are positions in the list of applied effects. -/
structure Block where
  effects : List TxnEffect
deriving DecidableEq, Repr

/-- Modelled from the spec: `start_block` hands out a fresh empty overlay. -/
def LedgerState.start_block (_l : LedgerState) : Block := ⟨[]⟩

/-- Modelled from the spec: `apply_transaction` on the block pipeline records
the effect in the overlay (the committed state is only read) and reserves the
next temp-SID from the per-block counter. -/
def LedgerState.apply_transaction (_l : LedgerState) (b : Block) (e : TxnEffect) :
    TxnTempSID × Block :=
  (⟨b.effects.length⟩, ⟨b.effects ++ [e]⟩)

def effOuts (e : TxnEffect) : Nat := e.txn.nOuts

def prefixOuts (l : List TxnEffect) (n : Nat) : Nat :=
  ((l.take n).map effOuts).sum

/-- Modelled from the spec: `finish_block` commits the overlay, assigning the
next canonical `TxnSID` to each temp-SID in insertion order and fresh
`TxoSID`s to each produced output. -/
def LedgerState.finish_block (l : LedgerState) (b : Block) :
    LedgerState × (TxnTempSID → Option (TxnSID × List TxoSID)) :=
  ({ txn_count := l.txn_count + b.effects.length,
     txo_count := l.txo_count + (b.effects.map effOuts).sum,
     effectsLog := l.effectsLog ++ b.effects },
   fun t =>
     match b.effects[t.val]? with
     | some e => some (⟨l.txn_count + t.val⟩,
         (List.range (effOuts e)).map (fun j => ⟨l.txo_count + prefixOuts b.effects t.val + j⟩))
     | none => none)

/-- Modelled from the spec: `abort_block` discards the overlay without
touching committed state. -/
def LedgerState.abort_block (l : LedgerState) (_b : Block) : LedgerState := l

/-- Modelled from the spec: the deterministic state commitment — a digest
that is a pure function of committed state. -/
def state_commitment (l : LedgerState) : Bytes :=
  sha256 ([l.txn_count, l.txo_count] ++
    l.effectsLog.flatMap (fun e => serialize_bincode e.txn ⟨0⟩))

/-- The `SubmissionServer` state (`components/submission_server/src/submission_server.rs`).
The RNG is dropped: per the spec it cannot influence validation outcomes. -/
structure Server where
  committed_state : LedgerState
  block : Option Block
  pending_txns : List (TxnTempSID × TxnHandle)
  txn_status : TxnHandle → Option TxnStatus
  block_capacity : Nat

def statusInsert (m : TxnHandle → Option TxnStatus) (k : TxnHandle) (v : TxnStatus) :
    TxnHandle → Option TxnStatus :=
  fun k' => if k' = k then some v else m k'

/-- `SubmissionServer::all_commited`. -/
def Server.all_commited (s : Server) : Bool := s.pending_txns.isEmpty

/-- `SubmissionServer::eligible_to_commit`: exactly at capacity. -/
def Server.eligible_to_commit (s : Server) : Bool :=
  s.pending_txns.length == s.block_capacity

/-- `SubmissionServer::begin_block`: `assert!(self.block.is_none())` — a
second open while one is open is a panic, not an error. -/
def Server.begin_block (s : Server) : Outcome Server :=
  if s.block.isSome then Outcome.panicked
  else Outcome.ok { s with block := some (s.committed_state.start_block) }

/-- `SubmissionServer::end_block`: swap the block out; with none open return
the `SubmissionServerError` leaving the server unchanged; otherwise finish the
block on the ledger, set every recorded (temp-SID, handle) pair's status to
Committed with its canonical identifiers (an unknown temp-SID would be an
`unwrap` panic), and clear the pending list. -/
def Server.end_block (s : Server) : Outcome (Server × Except PlatformError Unit) :=
  match s.block with
  | none => Outcome.ok (s, Except.error PlatformError.SubmissionServerError)
  | some b =>
    let fin := s.committed_state.finish_block b
    match s.pending_txns.foldl
        (fun acc p => acc.bind (fun st =>
          (fin.2 p.1).map (fun r => statusInsert st p.2 (TxnStatus.Committed r))))
        (some s.txn_status) with
    | none => Outcome.panicked
    | some st2 =>
      Outcome.ok ({ s with block := none, committed_state := fin.1,
                           txn_status := st2, pending_txns := [] },
                  Except.ok ())

/-- `SubmissionServer::cache_transaction`: with a block open, compute the
handle and the effect (propagating its error), apply the effect to the block,
record the (temp-SID, handle) pair and mark the handle Pending; with no block
open fail with the `SubmissionServerError`. -/
def Server.cache_transaction (s : Server) (txn : Transaction) :
    Server × Except PlatformError TxnHandle :=
  match s.block with
  | some b =>
    let handle := TxnHandle.new txn
    match compute_effect txn with
    | .error e => (s, Except.error e)
    | .ok eff =>
      let ap := s.committed_state.apply_transaction b eff
      ({ s with block := some ap.2,
                pending_txns := s.pending_txns ++ [(ap.1, handle)],
                txn_status := statusInsert s.txn_status handle TxnStatus.Pending },
       Except.ok handle)
  | none => (s, Except.error PlatformError.SubmissionServerError)

/-- `SubmissionServer::abort_block`: swap the block out and (if one was open)
abort it on the ledger; the pending list and the status map are untouched. -/
def Server.abort_block (s : Server) : Server :=
  match s.block with
  | none => s
  | some b => { s with block := none,
                       committed_state := s.committed_state.abort_block b }

/-- The tail of `SubmissionServer::handle_transaction` after the optional
`begin_block`: cache the transaction (propagating its error as the method's
result), then end the block exactly when the pending count equals the
capacity (the result of `end_block` is discarded). -/
def Server.handle_transaction_post (s1 : Server) (txn : Transaction) :
    Outcome (Server × Except PlatformError TxnHandle) :=
  match s1.cache_transaction txn with
  | (s2, .error e) => Outcome.ok (s2, Except.error e)
  | (s2, .ok h) =>
    if s2.eligible_to_commit then
      match s2.end_block with
      | .panicked => Outcome.panicked
      | .err e => Outcome.err e
      | .ok (s3, _res) => Outcome.ok (s3, Except.ok h)
    else Outcome.ok (s2, Except.ok h)

/-- `SubmissionServer::handle_transaction`: begin a block if the previous one
has been committed (pending list empty), then run the caching/committing
tail. -/
def Server.handle_transaction (s : Server) (txn : Transaction) :
    Outcome (Server × Except PlatformError TxnHandle) :=
  match (if s.all_commited then s.begin_block else Outcome.ok s) with
  | .panicked => Outcome.panicked
  | .err e => Outcome.err e
  | .ok s1 => s1.handle_transaction_post txn

end Subm

namespace Subm

/-- The server produced by a successful `cache_transaction` on an open
block. -/
def cachedServer (s1 : Server) (b : Block) (eff : TxnEffect) (h : TxnHandle) : Server :=
  { s1 with block := some ⟨b.effects ++ [eff]⟩,
            pending_txns := s1.pending_txns ++ [(⟨b.effects.length⟩, h)],
            txn_status := statusInsert s1.txn_status h TxnStatus.Pending }

theorem cache_transaction_none (s : Server) (txn : Transaction) (hb : s.block = none) :
    s.cache_transaction txn = (s, Except.error PlatformError.SubmissionServerError) := by
  unfold Server.cache_transaction
  rw [hb]

theorem cache_transaction_bad (s : Server) (txn : Transaction) (b : Block)
    (e : PlatformError) (hb : s.block = some b)
    (heff : compute_effect txn = Except.error e) :
    s.cache_transaction txn = (s, Except.error e) := by
  unfold Server.cache_transaction
  rw [hb, heff]

theorem cache_transaction_some (s : Server) (txn : Transaction) (b : Block)
    (eff : TxnEffect) (hb : s.block = some b)
    (heff : compute_effect txn = Except.ok eff) :
    s.cache_transaction txn =
      (cachedServer s b eff (TxnHandle.new txn), Except.ok (TxnHandle.new txn)) := by
  unfold Server.cache_transaction cachedServer LedgerState.apply_transaction
  rw [hb, heff]

/-- The status-update fold of `end_block`: when every recorded temp-SID is
assigned by `f`, the fold succeeds; every recorded handle ends up Committed
with the canonical record of one of its temp-SIDs, and unrecorded handles are
untouched. -/
theorem statusFoldSpec (f : TxnTempSID → Option (TxnSID × List TxoSID)) :
    ∀ (l : List (TxnTempSID × TxnHandle)) (st0 : TxnHandle → Option TxnStatus),
    (∀ p ∈ l, (f p.1).isSome) →
    ∃ st2,
      l.foldl (fun acc p => acc.bind (fun st =>
        (f p.1).map (fun r => statusInsert st p.2 (TxnStatus.Committed r)))) (some st0)
        = some st2 ∧
      (∀ h', (∃ p ∈ l, p.2 = h') →
        ∃ t r, (t, h') ∈ l ∧ f t = some r ∧ st2 h' = some (TxnStatus.Committed r)) ∧
      (∀ h', (∀ p ∈ l, p.2 ≠ h') → st2 h' = st0 h') := by
  intro l
  induction l with
  | nil =>
    intro st0 _
    exact ⟨st0, rfl, by rintro h' ⟨p, hp, -⟩; simp at hp, fun h' _ => rfl⟩
  | cons p rest ih =>
    intro st0 hall
    have hp0 : (f p.1).isSome := hall p (by simp)
    rcases Option.isSome_iff_exists.mp hp0 with ⟨r0, hr0⟩
    have hallrest : ∀ q ∈ rest, (f q.1).isSome := fun q hq => hall q (by simp [hq])
    rcases ih (statusInsert st0 p.2 (TxnStatus.Committed r0)) hallrest with
      ⟨st2, hfold, hmem, hout⟩
    refine ⟨st2, ?_, ?_, ?_⟩
    · rw [List.foldl_cons]
      rw [show (some st0).bind (fun st =>
          (f p.1).map (fun r => statusInsert st p.2 (TxnStatus.Committed r))) =
          some (statusInsert st0 p.2 (TxnStatus.Committed r0)) from by
        rw [Option.some_bind, hr0, Option.map_some']]
      exact hfold
    · intro h' hex
      by_cases hrest : ∃ q ∈ rest, q.2 = h'
      · rcases hmem h' hrest with ⟨t, r, htr, hfr, hst⟩
        exact ⟨t, r, by simp [htr], hfr, hst⟩
      · rcases hex with ⟨q, hq, hqh⟩
        rcases List.mem_cons.mp hq with rfl | hq'
        · have hall' : ∀ q' ∈ rest, q'.2 ≠ h' := by
            intro q' hqr hc
            exact hrest ⟨q', hqr, hc⟩
          have hst := hout h' hall'
          refine ⟨q.1, r0, ?_, hr0, ?_⟩
          · rw [← hqh]
            simp
          · rw [hst, ← hqh]
            simp [statusInsert]
        · exact absurd ⟨q, hq', hqh⟩ hrest
    · intro h' hnone
      have hst := hout h' (fun q hq => hnone q (by simp [hq]))
      rw [hst]
      have hne : h' ≠ p.2 := Ne.symm (hnone p (by simp))
      simp [statusInsert, hne]

theorem end_block_none (s : Server) (hb : s.block = none) :
    s.end_block = Outcome.ok (s, Except.error PlatformError.SubmissionServerError) := by
  unfold Server.end_block
  rw [hb]

/-- `end_block` on an open block whose recorded temp-SIDs were all assigned by
the overlay: the block closes, every recorded handle becomes Committed with
its canonical (TxnSID, TxoSIDs) record, the pending list is emptied, and
unrecorded handles keep their status. -/
theorem end_block_some (s : Server) (b : Block) (hb : s.block = some b)
    (hrange : ∀ p ∈ s.pending_txns, p.1.val < b.effects.length) :
    ∃ s', s.end_block = Outcome.ok (s', Except.ok ()) ∧
      s'.block = none ∧ s'.pending_txns = [] ∧
      s'.committed_state = (s.committed_state.finish_block b).1 ∧
      s'.block_capacity = s.block_capacity ∧
      (∀ p ∈ s.pending_txns, ∃ t r, (t, p.2) ∈ s.pending_txns ∧
        (s.committed_state.finish_block b).2 t = some r ∧
        s'.txn_status p.2 = some (TxnStatus.Committed r)) ∧
      (∀ h', (∀ p ∈ s.pending_txns, p.2 ≠ h') → s'.txn_status h' = s.txn_status h') := by
  have hall : ∀ p ∈ s.pending_txns,
      (((s.committed_state.finish_block b).2) p.1).isSome := by
    intro p hp
    have hlt := hrange p hp
    unfold LedgerState.finish_block
    simp only
    cases hg : b.effects[p.1.val]? with
    | none =>
      have := List.getElem?_eq_none_iff.mp hg
      omega
    | some e => simp
  rcases statusFoldSpec ((s.committed_state.finish_block b).2) s.pending_txns
      s.txn_status hall with ⟨st2, hfold, hmem, hout⟩
  refine ⟨{ s with
            block := none
            committed_state := (s.committed_state.finish_block b).1
            txn_status := st2
            pending_txns := [] }, ?_, rfl, rfl, rfl, rfl, ?_, ?_⟩
  · unfold Server.end_block
    rw [hb]
    simp only
    rw [hfold]
  · intro p hp
    rcases hmem p.2 ⟨p, hp, rfl⟩ with ⟨t, r, htr, hfr, hst⟩
    exact ⟨t, r, htr, hfr, hst⟩
  · intro h' hnone
    exact hout h' hnone

end Subm

namespace Subm

theorem all_commited_false (s : Server) (hp : s.pending_txns ≠ []) :
    s.all_commited = false := by
  unfold Server.all_commited
  cases hpend : s.pending_txns with
  | nil => exact absurd hpend hp
  | cons q rest => rfl

theorem all_commited_true (s : Server) (hp : s.pending_txns = []) :
    s.all_commited = true := by
  unfold Server.all_commited
  rw [hp]
  rfl

theorem handle_skips_begin (s : Server) (txn : Transaction)
    (hp : s.pending_txns ≠ []) :
    s.handle_transaction txn = s.handle_transaction_post txn := by
  unfold Server.handle_transaction
  rw [all_commited_false s hp]
  simp

theorem begin_block_none_eq (s : Server) (hb : s.block = none) :
    s.begin_block = Outcome.ok { s with block := some ⟨[]⟩ } := by
  unfold Server.begin_block
  rw [hb]
  rfl

theorem begin_block_some_eq (s : Server) (hb : s.block.isSome) :
    s.begin_block = Outcome.panicked := by
  unfold Server.begin_block
  rw [hb]
  rfl

theorem handle_opens_block (s : Server) (txn : Transaction)
    (hp : s.pending_txns = []) (hb : s.block = none) :
    s.handle_transaction txn =
      Server.handle_transaction_post { s with block := some ⟨[]⟩ } txn := by
  unfold Server.handle_transaction
  rw [all_commited_true s hp]
  simp only [if_true]
  rw [begin_block_none_eq s hb]

theorem handle_panics_when_open_and_empty (s : Server) (txn : Transaction)
    (hp : s.pending_txns = []) (hb : s.block.isSome) :
    s.handle_transaction txn = Outcome.panicked := by
  unfold Server.handle_transaction
  rw [all_commited_true s hp]
  simp only [if_true]
  rw [begin_block_some_eq s hb]

theorem post_no_block (s1 : Server) (txn : Transaction) (hb : s1.block = none) :
    s1.handle_transaction_post txn =
      Outcome.ok (s1, Except.error PlatformError.SubmissionServerError) := by
  unfold Server.handle_transaction_post
  rw [cache_transaction_none s1 txn hb]

theorem post_bad_effect (s1 : Server) (txn : Transaction) (b : Block)
    (e : PlatformError) (hb : s1.block = some b)
    (heff : compute_effect txn = Except.error e) :
    s1.handle_transaction_post txn = Outcome.ok (s1, Except.error e) := by
  unfold Server.handle_transaction_post
  rw [cache_transaction_bad s1 txn b e hb heff]

theorem cachedServer_not_eligible (s1 : Server) (b : Block) (eff : TxnEffect)
    (h : TxnHandle) (hcap : s1.pending_txns.length + 1 ≠ s1.block_capacity) :
    (cachedServer s1 b eff h).eligible_to_commit = false := by
  unfold Server.eligible_to_commit cachedServer
  simp only [List.length_append, List.length_cons, List.length_nil]
  rw [Bool.eq_false_iff]
  intro hcontra
  rw [beq_iff_eq] at hcontra
  omega

theorem cachedServer_eligible (s1 : Server) (b : Block) (eff : TxnEffect)
    (h : TxnHandle) (hcap : s1.pending_txns.length + 1 = s1.block_capacity) :
    (cachedServer s1 b eff h).eligible_to_commit = true := by
  unfold Server.eligible_to_commit cachedServer
  simp only [List.length_append, List.length_cons, List.length_nil]
  rw [beq_iff_eq]
  omega

theorem post_below_capacity (s1 : Server) (txn : Transaction) (b : Block)
    (eff : TxnEffect) (hb : s1.block = some b)
    (heff : compute_effect txn = Except.ok eff)
    (hcap : s1.pending_txns.length + 1 ≠ s1.block_capacity) :
    s1.handle_transaction_post txn =
      Outcome.ok (cachedServer s1 b eff (TxnHandle.new txn),
                  Except.ok (TxnHandle.new txn)) := by
  unfold Server.handle_transaction_post
  rw [cache_transaction_some s1 txn b eff hb heff]
  simp only
  rw [cachedServer_not_eligible s1 b eff (TxnHandle.new txn) hcap]
  simp

theorem post_at_capacity (s1 : Server) (txn : Transaction) (b : Block)
    (eff : TxnEffect) (hb : s1.block = some b)
    (heff : compute_effect txn = Except.ok eff)
    (hcap : s1.pending_txns.length + 1 = s1.block_capacity)
    (hrange : ∀ p ∈ s1.pending_txns, p.1.val < b.effects.length) :
    ∃ s3, s1.handle_transaction_post txn =
        Outcome.ok (s3, Except.ok (TxnHandle.new txn)) ∧
      s3.block = none ∧ s3.pending_txns = [] ∧
      s3.block_capacity = s1.block_capacity ∧
      (∀ p ∈ (cachedServer s1 b eff (TxnHandle.new txn)).pending_txns,
        ∃ r, s3.txn_status p.2 = some (TxnStatus.Committed r)) := by
  have hrange2 : ∀ p ∈ (cachedServer s1 b eff (TxnHandle.new txn)).pending_txns,
      p.1.val < (b.effects ++ [eff]).length := by
    intro p hp
    unfold cachedServer at hp
    simp only at hp
    rcases List.mem_append.mp hp with hold | hnew
    · have := hrange p hold
      simp only [List.length_append, List.length_cons, List.length_nil]
      omega
    · simp only [List.mem_cons, List.not_mem_nil, or_false] at hnew
      subst hnew
      simp only [List.length_append, List.length_cons, List.length_nil]
      omega
  have hb2 : (cachedServer s1 b eff (TxnHandle.new txn)).block =
      some ⟨b.effects ++ [eff]⟩ := rfl
  rcases end_block_some (cachedServer s1 b eff (TxnHandle.new txn))
      ⟨b.effects ++ [eff]⟩ hb2 hrange2 with
    ⟨s3, hend, hblk, hpend, hled, hcapeq, hcomm, hother⟩
  refine ⟨s3, ?_, hblk, hpend, hcapeq, ?_⟩
  · unfold Server.handle_transaction_post
    rw [cache_transaction_some s1 txn b eff hb heff]
    simp only
    rw [cachedServer_eligible s1 b eff (TxnHandle.new txn) hcap]
    simp only [if_true]
    rw [hend]
  · intro p hp
    rcases hcomm p hp with ⟨t, r, -, -, hst⟩
    exact ⟨r, hst⟩

end Subm

namespace Subm

/-- C4 (amended): `handle_transaction` opens a block exactly when the pending
list is empty (the previous block fully committed), not when no block is open:
with no open block and a nonempty pending list it fails without opening a
block or caching anything; with an open block but an empty pending list it
panics on `begin_block`'s assertion; after a successful cache it invokes
`end_block` exactly when the pending count equals `block_capacity` (below
capacity the block stays open with the transaction appended); and from the
empty/closed state it opens a block and caches. -/
theorem c4_handle_transaction_spec :
    (∀ (s : Server) (txn : Transaction), s.block = none → s.pending_txns ≠ [] →
      s.handle_transaction txn =
        Outcome.ok (s, Except.error PlatformError.SubmissionServerError)) ∧
    (∀ (s : Server) (txn : Transaction), s.block.isSome → s.pending_txns = [] →
      s.handle_transaction txn = Outcome.panicked) ∧
    (∀ (s : Server) (txn : Transaction) (b : Block) (eff : TxnEffect),
      s.block = some b → s.pending_txns ≠ [] → compute_effect txn = Except.ok eff →
      (s.pending_txns.length + 1 ≠ s.block_capacity →
        s.handle_transaction txn =
          Outcome.ok (cachedServer s b eff (TxnHandle.new txn),
                      Except.ok (TxnHandle.new txn))) ∧
      (s.pending_txns.length + 1 = s.block_capacity →
        (∀ p ∈ s.pending_txns, p.1.val < b.effects.length) →
        ∃ s3, s.handle_transaction txn =
            Outcome.ok (s3, Except.ok (TxnHandle.new txn)) ∧
          s3.block = none ∧ s3.pending_txns = [])) ∧
    (∀ (s : Server) (txn : Transaction) (eff : TxnEffect),
      s.block = none → s.pending_txns = [] → compute_effect txn = Except.ok eff →
      1 ≠ s.block_capacity →
      ∃ s2, s.handle_transaction txn =
          Outcome.ok (s2, Except.ok (TxnHandle.new txn)) ∧
        s2.block = some ⟨[eff]⟩ ∧
        s2.pending_txns = [(⟨0⟩, TxnHandle.new txn)]) := by
  refine ⟨?_, ?_, ?_, ?_⟩
  · intro s txn hb hp
    rw [handle_skips_begin s txn hp]
    exact post_no_block s txn hb
  · intro s txn hb hp
    exact handle_panics_when_open_and_empty s txn hp hb
  · intro s txn b eff hb hp heff
    constructor
    · intro hcap
      rw [handle_skips_begin s txn hp]
      exact post_below_capacity s txn b eff hb heff hcap
    · intro hcap hrange
      rw [handle_skips_begin s txn hp]
      rcases post_at_capacity s txn b eff hb heff hcap hrange with
        ⟨s3, hpost, hblk, hpend, -, -⟩
      exact ⟨s3, hpost, hblk, hpend⟩
  · intro s txn eff hb hp heff hcap
    rw [handle_opens_block s txn hp hb]
    have hb1 : ({ s with block := some ⟨[]⟩ } : Server).block = some ⟨[]⟩ := rfl
    have hcap1 : ({ s with block := some ⟨[]⟩ } : Server).pending_txns.length + 1 ≠
        ({ s with block := some ⟨[]⟩ } : Server).block_capacity := by
      show s.pending_txns.length + 1 ≠ s.block_capacity
      rw [hp]
      simpa using hcap
    rw [post_below_capacity _ txn ⟨[]⟩ eff hb1 heff hcap1]
    refine ⟨cachedServer { s with block := some ⟨[]⟩ } ⟨[]⟩ eff (TxnHandle.new txn),
      rfl, rfl, ?_⟩
    show s.pending_txns ++ [(⟨0⟩, TxnHandle.new txn)] = [(⟨0⟩, TxnHandle.new txn)]
    rw [hp]
    rfl

def hA : TxnHandle := TxnHandle.new ⟨true, 0, 42⟩

def sC4 : Server :=
  { committed_state := ⟨0, 0, []⟩, block := none, pending_txns := [(⟨0⟩, hA)],
    txn_status := fun _ => none, block_capacity := 3 }

def tB : Transaction := ⟨true, 0, 1⟩

/-- Counterexample to C4 as stated: with no block open but a nonempty pending
list (reachable, e.g. after `abort_block`), `handle_transaction` does NOT open
a block — it returns the `SubmissionServerError` with the server unchanged,
because the begin condition is `all_commited` (pending list empty), not
"no block is open". -/
theorem c4_no_open_on_nonempty_pending :
    sC4.block = none ∧ sC4.pending_txns ≠ [] ∧
    sC4.handle_transaction tB =
      Outcome.ok (sC4, Except.error PlatformError.SubmissionServerError) := by
  refine ⟨rfl, by decide, rfl⟩

/-- C5 (amended): `end_block` with a block open (and every recorded temp-SID
assigned in the overlay) finishes it, sets every recorded handle's status to
Committed with its canonical (TxnSID, TxoSIDs) record, empties the pending
list and leaves other handles' statuses untouched; `end_block` with no block
open returns a SubmissionServerError leaving the server unchanged; but —
amending the claim — opening a second block while one is open is an assertion
failure (panic), not an error surfaced to the caller. -/
theorem c5_end_block_spec :
    (∀ (s : Server) (b : Block), s.block = some b →
      (∀ p ∈ s.pending_txns, p.1.val < b.effects.length) →
      ∃ s', s.end_block = Outcome.ok (s', Except.ok ()) ∧
        s'.block = none ∧ s'.pending_txns = [] ∧
        (∀ p ∈ s.pending_txns, ∃ t r, (t, p.2) ∈ s.pending_txns ∧
          (s.committed_state.finish_block b).2 t = some r ∧
          s'.txn_status p.2 = some (TxnStatus.Committed r)) ∧
        (∀ h', (∀ p ∈ s.pending_txns, p.2 ≠ h') →
          s'.txn_status h' = s.txn_status h')) ∧
    (∀ s : Server, s.block = none →
      s.end_block = Outcome.ok (s, Except.error PlatformError.SubmissionServerError)) ∧
    (∀ s : Server, s.block.isSome → s.begin_block = Outcome.panicked) := by
  refine ⟨?_, ?_, ?_⟩
  · intro s b hb hrange
    rcases end_block_some s b hb hrange with ⟨s', hend, hblk, hpend, -, -, hcomm, hother⟩
    exact ⟨s', hend, hblk, hpend, hcomm, hother⟩
  · intro s hb
    exact end_block_none s hb
  · intro s hb
    exact begin_block_some_eq s hb

def sC5 : Server :=
  { committed_state := ⟨0, 0, []⟩, block := some ⟨[]⟩, pending_txns := [],
    txn_status := fun _ => none, block_capacity := 2 }

/-- Counterexample to C5 as stated: opening a second block while one is open
does not surface a `PlatformError` to the caller — it is a panic (the
`assert!(self.block.is_none())`). -/
theorem c5_begin_block_panics :
    sC5.begin_block = Outcome.panicked ∧
    ∀ e : PlatformError, sC5.begin_block ≠ Outcome.err e := by
  constructor
  · rfl
  · intro e h
    rw [begin_block_some_eq sC5 rfl] at h
    exact Outcome.noConfusion h

def sC5n : Server :=
  { committed_state := ⟨0, 0, []⟩, block := none, pending_txns := [],
    txn_status := fun _ => none, block_capacity := 2 }

/-- Witness for C5: finishing with no block open returns the error and leaves
the concrete server untouched. -/
theorem c5_end_block_spec_witness :
    sC5n.block = none ∧
    sC5n.end_block = Outcome.ok (sC5n, Except.error PlatformError.SubmissionServerError) :=
  ⟨rfl, c5_end_block_spec.2.1 sC5n rfl⟩

/-- C6 (amended): `abort_block` discards the open block handle and leaves the
committed ledger state, its commitment, and the whole status map unchanged
(in particular no entry flips to Committed) — but, amending the claim, the
pending list is NOT cleared: it is left exactly as it was. -/
theorem c6_abort_block_spec (s : Server) :
    s.abort_block.pending_txns = s.pending_txns ∧
    s.abort_block.txn_status = s.txn_status ∧
    s.abort_block.committed_state = s.committed_state ∧
    state_commitment s.abort_block.committed_state =
      state_commitment s.committed_state ∧
    s.abort_block.block = none := by
  cases hb : s.block with
  | none =>
    unfold Server.abort_block
    rw [hb]
    exact ⟨rfl, rfl, rfl, rfl, hb⟩
  | some b =>
    unfold Server.abort_block
    rw [hb]
    exact ⟨rfl, rfl, rfl, rfl, rfl⟩

def sC6 : Server :=
  { committed_state := ⟨0, 0, []⟩, block := some ⟨[]⟩,
    pending_txns := [(⟨0⟩, ⟨[7]⟩)], txn_status := fun _ => none,
    block_capacity := 2 }

/-- Counterexample to C6 as stated: after `abort_block` on a server with a
recorded pending transaction, the pending list is NOT empty — the method never
touches `pending_txns`. -/
theorem c6_abort_keeps_pending :
    sC6.abort_block.pending_txns = [(⟨0⟩, ⟨[7]⟩)] ∧
    sC6.abort_block.pending_txns ≠ [] := by
  refine ⟨rfl, by decide⟩

def txnE : Transaction := ⟨true, 0, 0⟩

def txnE2 : Transaction := ⟨true, 0, 0⟩

def sC7 : Server :=
  { committed_state := ⟨0, 0, []⟩, block := none, pending_txns := [],
    txn_status := fun _ => none, block_capacity := 2 }

/-- C7: `TxnHandle::new` is the lowercase hex of the SHA-256 of the bincode
serialization with the sentinel `TxnSID(0)` — so it depends only on the
serialized content, and bytewise-equal transactions share a handle.
Consequently, on a fresh server with capacity 2, submitting the same
transaction twice commits the block and leaves the shared handle's status
overwritten to `Committed(TxnSID(1), [])`. -/
theorem c7_txn_handle_content_addressed :
    (∀ t : Transaction, TxnHandle.new t = ⟨hexEncode (sha256 (serialize_bincode t ⟨0⟩))⟩) ∧
    (∀ t₁ t₂ : Transaction, serialize_bincode t₁ ⟨0⟩ = serialize_bincode t₂ ⟨0⟩ →
      TxnHandle.new t₁ = TxnHandle.new t₂) ∧
    (∃ s1 s2 : Server,
      sC7.handle_transaction txnE = Outcome.ok (s1, Except.ok (TxnHandle.new txnE)) ∧
      s1.handle_transaction txnE = Outcome.ok (s2, Except.ok (TxnHandle.new txnE)) ∧
      s2.txn_status (TxnHandle.new txnE) = some (TxnStatus.Committed (⟨1⟩, [])) ∧
      s2.pending_txns = []) := by
  refine ⟨fun t => rfl, ?_, ?_⟩
  · intro t₁ t₂ h
    unfold TxnHandle.new
    rw [h]
  · refine ⟨_, _, rfl, rfl, ?_, rfl⟩
    decide

/-- Witness for C7: two definitionally distinct but bytewise-equal
transactions produce the same handle. -/
theorem c7_txn_handle_content_addressed_witness :
    TxnHandle.new txnE = TxnHandle.new txnE2 :=
  c7_txn_handle_content_addressed.2.1 txnE txnE2 (by decide)

end Subm

namespace Subm

def txA : Transaction := ⟨true, 0, 42⟩

def sC4b : Server :=
  { committed_state := ⟨0, 0, []⟩, block := some ⟨[⟨txA⟩]⟩,
    pending_txns := [(⟨0⟩, hA)], txn_status := fun _ => none,
    block_capacity := 3 }

/-- Witness for C4: with an open block holding one cached transaction and
capacity 3, a second submission is cached and the block stays open (no
finalization below capacity). -/
theorem c4_handle_transaction_spec_witness :
    sC4b.handle_transaction tB =
      Outcome.ok (cachedServer sC4b ⟨[⟨txA⟩]⟩ ⟨tB⟩ (TxnHandle.new tB),
                  Except.ok (TxnHandle.new tB)) :=
  (c4_handle_transaction_spec.2.2.1 sC4b tB ⟨[⟨txA⟩]⟩ ⟨tB⟩ rfl (by decide) rfl).1
    (by decide)

end Subm
